import Mathlib

/-!
# qamqp-ng: exchange and queue entities

A shallow embedding of `src/qamqpexchange.cpp` and `src/amqp_queue.cpp`.

Conventions of the embedding.

* Every entity is a record of its private fields. A member function is a
  function from the record (and its arguments) to the new record.
* What an entity does to the outside world (`sendFrame`, an emitted Qt signal,
  `reopen()`) is appended, in program order, to the field `log` of the record.
* `qlonglong` and `int` values are `Int`. The only arithmetic the two files do
  on them is `nextDeliveryTag++`, `sent += frameMax - 7` and
  `leftSize -= body.size()`; signed overflow is undefined behaviour in C++, so
  the embedding describes the runs in which it does not happen.
* The argument buffer of a method frame is the list of the typed fields the
  codec wrote, not their bytes: the codec is an external collaborator.
-/

namespace QAmqp

/-! ## Frames -/

/-- Byte buffer (`QByteArray`). -/
abbrev QByteArray := List UInt8

/-- Field table (`QAmqpTable`, `Frame::TableField`). -/
abbrev QAmqpTable := List (String × String)

/-- One typed value written to, or read from, a method frame's argument buffer. -/
inductive Field where
  | int16 (v : Int)
  | int8 (v : Int)
  | longLong (v : Int)
  | boolean (b : Bool)
  | shortString (s : String)
  | table (t : QAmqpTable)
  deriving DecidableEq, Repr

/-- Value of a message property (`QVariant`). -/
inductive QVariant where
  | str (s : String)
  | tbl (t : QAmqpTable)
  deriving DecidableEq, Repr

/-- Message property keys (`QAmqpMessage::Property`, `Message::MessageProperty`). -/
inductive Property where
  | ContentType
  | ContentEncoding
  | Headers
  | DeliveryMode
  | Priority
  | CorrelationId
  | ReplyTo
  | Expiration
  | MessageId
  | Timestamp
  | Type
  | UserId
  | AppId
  | ClusterID
  deriving DecidableEq, Repr

/-- Property hash (`QHash<Property, QVariant>`): at most one value per key. -/
abbrev PropertyHash := List (Property × QVariant)

/-- Assignment `hash[key] = value`: replaces the value of a key that is present,
adds the key otherwise. -/
def setProperty (h : PropertyHash) (key : Property) (value : QVariant) : PropertyHash :=
  match h with
  | [] => [(key, value)]
  | (k, v) :: rest =>
    if k = key then (k, value) :: rest else (k, v) :: setProperty rest key value

/-- Modelled from the spec: the class ids of AMQP 0-9-1 (`QAmqpFrame::MethodClass`,
declared in a header that is not under src/). -/
def fcChannel : Nat := 20

/-- Modelled from the spec: AMQP 0-9-1 class id of the Exchange class. -/
def fcExchange : Nat := 40

/-- Modelled from the spec: AMQP 0-9-1 class id of the Queue class. -/
def fcQueue : Nat := 50

/-- Modelled from the spec: AMQP 0-9-1 class id of the Basic class. -/
def fcBasic : Nat := 60

/-- Modelled from the spec: AMQP 0-9-1 class id of the Confirm class. -/
def fcConfirm : Nat := 85

/-- Method frame (`QAmqpMethodFrame`, `Frame::Method`). -/
structure MethodFrame where
  channel : Int
  methodClass : Nat
  id : Nat
  arguments : List Field
  deriving DecidableEq, Repr

/-- Content-header frame (`QAmqpContentFrame`, `Frame::Content`). -/
structure ContentFrame where
  channel : Int
  methodClass : Nat
  bodySize : Int
  properties : PropertyHash
  deriving DecidableEq, Repr

/-- Content-body frame (`QAmqpContentBodyFrame`, `Frame::ContentBody`). -/
structure ContentBodyFrame where
  channel : Int
  body : QByteArray
  deriving DecidableEq, Repr

/-- Any frame handed to `sendFrame`. -/
inductive Frame where
  | method (f : MethodFrame)
  | content (f : ContentFrame)
  | body (f : ContentBodyFrame)
  deriving DecidableEq, Repr

/-- Qt signals of the two entities. -/
inductive Signal where
  | declared
  | removed
  | confirmsEnabled
  | allMessagesDelivered
  | error (code : Int)
  | binded (ok : Bool)
  | empty
  | messageReceived
  deriving DecidableEq, Repr

/-- What an entity does to its collaborators. -/
inductive Effect where
  | sendFrame (f : Frame)
  | emit (s : Signal)
  | reopen
  deriving DecidableEq, Repr

/-- Conversion `qint8(v)`: the low eight bits, read as a signed byte. -/
def qint8 (v : Int) : Int := (v + 128) % 256 - 128

/-- Reading a `LongLongUint` field and converting it with `toLongLong()`; a field
of another kind gives an invalid variant, which converts to 0. -/
def readLongLong : List Field → Int × List Field
  | Field.longLong v :: rest => (v, rest)
  | _ :: rest => (0, rest)
  | [] => (0, [])

/-- Reading a `Boolean` field and converting it with `toBool()`. -/
def readBool : List Field → Bool × List Field
  | Field.boolean b :: rest => (b, rest)
  | _ :: rest => (false, rest)
  | [] => (false, [])

/-- Reading a `ShortString` field and converting it with `toString()`. -/
def readShortString : List Field → String × List Field
  | Field.shortString s :: rest => (s, rest)
  | _ :: rest => ("", rest)
  | [] => ("", [])

/-! ## Qt containers -/

/-- The call `QVector::indexOf(t)`: index of the first occurrence, or -1. -/
def indexOf (l : List Int) (t : Int) : Int :=
  match l with
  | [] => -1
  | x :: rest =>
    if x = t then 0
    else
      let r := indexOf rest t
      if r = -1 then -1 else r + 1

/-- The call `QVector::remove(i, n)`: drops the `n` elements from index `i` on. -/
def removeRange (l : List Int) (i n : Nat) : List Int :=
  l.take i ++ l.drop (i + n)

/-- The call `QVector::remove(i)`: drops the element at index `i`. -/
def removeAt (l : List Int) (i : Nat) : List Int :=
  l.eraseIdx i

/-- The call `QByteArray::mid(pos, len)` of Qt: the slice of `len` bytes from
`pos`, cut at the end of the array; the whole rest when `len` is negative or
reaches past the end. -/
def mid (b : QByteArray) (pos len : Int) : QByteArray :=
  let size : Int := b.length
  if pos > size then []
  else if pos < 0 then
    if len < 0 ∨ len + pos ≥ size then b
    else if len + pos ≤ 0 then []
    else b.take (len + pos).toNat
  else if len < 0 ∨ len > size - pos then b.drop pos.toNat
  else (b.drop pos.toNat).take len.toNat

/-! ## Exchange entity (`qamqpexchange.cpp`) -/

/-- Modelled from the spec: the channel states (`QAmqpChannelPrivate::ChannelState`,
declared in a header that is not under src/): Closed, Opening, Open. -/
inductive ChannelState where
  | ChannelClosedState
  | ChannelOpeningState
  | ChannelOpenState
  deriving DecidableEq, Repr

/-- Exchange states, as printed by `operator<<(QDebug, ExchangeState)`. -/
inductive ExchangeState where
  | ExchangeClosedState
  | ExchangeUndeclaredState
  | ExchangeDeclaringState
  | ExchangeDeclaredState
  | ExchangeRemovingState
  deriving DecidableEq, Repr

namespace QAmqpExchangePrivate

/-- Modelled from the spec: AMQP 0-9-1 method ids of the Exchange class
(`QAmqpExchangePrivate::MethodId`, declared in a header that is not under src/):
Exchange.Declare. -/
def miDeclare : Nat := 10

/-- Modelled from the spec: Exchange.DeclareOk. -/
def miDeclareOk : Nat := 11

/-- Modelled from the spec: Exchange.Delete. -/
def miDelete : Nat := 20

/-- Modelled from the spec: Exchange.DeleteOk. -/
def miDeleteOk : Nat := 21

/-- Modelled from the spec: Basic.Publish. -/
def bmPublish : Nat := 40

/-- Modelled from the spec: Basic.Return. -/
def bmReturn : Nat := 50

/-- Modelled from the spec: Basic.Ack. -/
def bmAck : Nat := 80

/-- Modelled from the spec: Basic.Nack. -/
def bmNack : Nat := 120

/-- Modelled from the spec: Confirm.Select. -/
def cmConfirm : Nat := 10

/-- Modelled from the spec: Confirm.SelectOk. -/
def cmConfirmOk : Nat := 11

end QAmqpExchangePrivate

/-- Fields of `QAmqpExchangePrivate` (with those of its base class that the file
uses), the client's negotiated `frameMax()`, and the effect log. -/
structure QAmqpExchangePrivate where
  name : String
  type : String
  options : Int
  arguments : QAmqpTable
  channelNumber : Int
  channelState : ChannelState
  needOpen : Bool
  frameMax : Int
  delayedDeclare : Bool
  delayedRemove : Bool
  removeOptions : Int
  exchangeState : ExchangeState
  nextDeliveryTag : Int
  unconfirmedDeliveryTags : List Int
  log : List Effect
  deriving DecidableEq, Repr

namespace QAmqpExchangePrivate

/-- The constructor `QAmqpExchangePrivate(q)` followed by `init(channelNumber, parent)`:
no delayed operation, exchange closed, confirms disabled, nothing unconfirmed. The
fields of the base class (not under src/) start with the channel closed. -/
def init (name : String) (channelNumber : Int) (frameMax : Int) : QAmqpExchangePrivate :=
  { name := name, type := "", options := 0, arguments := [],
    channelNumber := channelNumber,
    channelState := ChannelState.ChannelClosedState, needOpen := true,
    frameMax := frameMax,
    delayedDeclare := false, delayedRemove := false, removeOptions := 0,
    exchangeState := ExchangeState.ExchangeClosedState,
    nextDeliveryTag := 0, unconfirmedDeliveryTags := [], log := [] }

/-- The call `sendFrame(frame)`. -/
def sendFrame (d : QAmqpExchangePrivate) (f : Frame) : QAmqpExchangePrivate :=
  { d with log := d.log ++ [Effect.sendFrame f] }

/-- A signal emission `Q_EMIT q->sig()`. -/
def emit (d : QAmqpExchangePrivate) (s : Signal) : QAmqpExchangePrivate :=
  { d with log := d.log ++ [Effect.emit s] }

/-- The call `q->reopen()` of the channel. -/
def reopen (d : QAmqpExchangePrivate) : QAmqpExchangePrivate :=
  { d with log := d.log ++ [Effect.reopen] }

/-- Report and change state: `newState(ExchangeState)`. -/
def newState (d : QAmqpExchangePrivate) (state : ExchangeState) : QAmqpExchangePrivate :=
  { d with exchangeState := state }

/-- Modelled from the spec: `isOpen()` of the channel (not under src/): the channel
state is Open. -/
def isOpen (d : QAmqpExchangePrivate) : Bool :=
  d.channelState = ChannelState.ChannelOpenState

/-- The Exchange.Declare method frame built by `declare()`. -/
def declareFrame (d : QAmqpExchangePrivate) : MethodFrame :=
  { channel := d.channelNumber, methodClass := fcExchange, id := miDeclare,
    arguments := [Field.int16 0, Field.shortString d.name, Field.shortString d.type,
                  Field.int8 (qint8 d.options), Field.table d.arguments] }

/-- The tail of `declare()`, reached when the state checks let the call through:
the name check, the state change and the Exchange.Declare frame. -/
def declareSend (d : QAmqpExchangePrivate) : QAmqpExchangePrivate :=
  if d.name.isEmpty then d
  else
    let d1 := newState d ExchangeState.ExchangeDeclaringState
    let d2 := sendFrame d1 (Frame.method (declareFrame d1))
    { d2 with delayedDeclare := false }

/-- Member `QAmqpExchangePrivate::declare()`. -/
def declare (d : QAmqpExchangePrivate) : QAmqpExchangePrivate :=
  if d.channelState ≠ ChannelState.ChannelClosedState then
    reopen { d with delayedDeclare := true, delayedRemove := false, needOpen := true }
  else if d.exchangeState = ExchangeState.ExchangeDeclaredState then
    declareSend d
  else if d.exchangeState ≠ ExchangeState.ExchangeUndeclaredState then
    if d.exchangeState ≠ ExchangeState.ExchangeDeclaringState then
      { d with delayedDeclare := true }
    else d
  else declareSend d

/-- The Exchange.Delete method frame built by `remove(options)`. -/
def deleteFrame (d : QAmqpExchangePrivate) (options : Int) : MethodFrame :=
  { channel := d.channelNumber, methodClass := fcExchange, id := miDelete,
    arguments := [Field.int16 0, Field.shortString d.name, Field.int8 (qint8 options)] }

/-- Member `QAmqpExchange::remove(options)`. -/
def remove (d : QAmqpExchangePrivate) (options : Int) : QAmqpExchangePrivate :=
  if ¬ d.isOpen then
    reopen { d with delayedDeclare := false, delayedRemove := true, needOpen := true,
                    removeOptions := options }
  else
    let d1 := sendFrame d (Frame.method (deleteFrame d options))
    { d1 with delayedRemove := false }

/-- Member `QAmqpExchangePrivate::declareOk(frame)`. -/
def declareOk (d : QAmqpExchangePrivate) (_frame : MethodFrame) : QAmqpExchangePrivate :=
  let d1 := newState d ExchangeState.ExchangeDeclaredState
  let d2 := emit d1 Signal.declared
  if d2.delayedRemove then remove d2 d2.removeOptions else d2

/-- Member `QAmqpExchangePrivate::deleteOk(frame)`. -/
def deleteOk (d : QAmqpExchangePrivate) (_frame : MethodFrame) : QAmqpExchangePrivate :=
  let d1 := newState d ExchangeState.ExchangeUndeclaredState
  let d2 := emit d1 Signal.removed
  if d2.delayedDeclare then declare d2 else d2

/-- Member `QAmqpExchangePrivate::handleAckOrNack(frame)`. The inner value is
`none` where the source returns early (the tag is not in the list). -/
def handleAckOrNack (d : QAmqpExchangePrivate) (frame : MethodFrame) : QAmqpExchangePrivate :=
  let r1 := readLongLong frame.arguments
  let deliveryTag := r1.1
  let r2 := readBool r1.2
  let multiple := r2.1
  if frame.id = bmAck then
    let resolved : Option QAmqpExchangePrivate :=
      if deliveryTag = 0 then
        some { d with unconfirmedDeliveryTags := [] }
      else
        let idx := indexOf d.unconfirmedDeliveryTags deliveryTag
        if idx = -1 then none
        else if multiple then
          some { d with unconfirmedDeliveryTags :=
                  removeRange d.unconfirmedDeliveryTags 0 (idx + 1).toNat }
        else
          some { d with unconfirmedDeliveryTags :=
                  removeAt d.unconfirmedDeliveryTags idx.toNat }
    match resolved with
    | none => d
    | some d1 =>
      if d1.unconfirmedDeliveryTags.isEmpty then emit d1 Signal.allMessagesDelivered else d1
  else d

/-- The Basic.Publish method frame built by `publish`. -/
def publishFrame (d : QAmqpExchangePrivate) (routingKey : String) (publishOptions : Int) :
    MethodFrame :=
  { channel := d.channelNumber, methodClass := fcBasic, id := bmPublish,
    arguments := [Field.int16 0, Field.shortString d.name, Field.shortString routingKey,
                  Field.int8 (qint8 publishOptions)] }

/-- The content-header frame built by `publish`: the four default properties, then
the caller's properties in iteration order, then the body size. -/
def publishContent (d : QAmqpExchangePrivate) (message : QByteArray) (mimeType : String)
    (headers : QAmqpTable) (properties : PropertyHash) : ContentFrame :=
  let p1 := setProperty [] Property.ContentType (QVariant.str mimeType)
  let p2 := setProperty p1 Property.ContentEncoding (QVariant.str "utf-8")
  let p3 := setProperty p2 Property.Headers (QVariant.tbl headers)
  let p4 := setProperty p3 Property.MessageId (QVariant.str "0")
  let p5 := properties.foldl (fun h kv => setProperty h kv.1 kv.2) p4
  { channel := d.channelNumber, methodClass := fcBasic, bodySize := message.length,
    properties := p5 }

/-- The body loop of `publish`,
`for (int sent = 0; sent < fullSize; sent += frameMax() - 7)`, entered with the
current value of `sent`. Every iteration spends one unit of fuel; the result is
`none` when the fuel does not reach the end of the loop. -/
def publishLoop (message : QByteArray) :
    Nat → Int → QAmqpExchangePrivate → Option QAmqpExchangePrivate
  | 0, sent, d => if sent < (message.length : Int) then none else some d
  | fuel + 1, sent, d =>
    if sent < (message.length : Int) then
      let partition := mid message sent (d.frameMax - 7)
      let d1 := sendFrame d (Frame.body { channel := d.channelNumber, body := partition })
      publishLoop message fuel (sent + (d.frameMax - 7)) d1
    else some d

/-- Member `QAmqpExchange::publish(message, routingKey, mimeType, headers, properties,
publishOptions)`. -/
def publish (fuel : Nat) (d : QAmqpExchangePrivate) (message : QByteArray)
    (routingKey mimeType : String) (headers : QAmqpTable) (properties : PropertyHash)
    (publishOptions : Int) : Option QAmqpExchangePrivate :=
  let d1 :=
    if d.nextDeliveryTag > 0 then
      { d with unconfirmedDeliveryTags := d.unconfirmedDeliveryTags ++ [d.nextDeliveryTag],
               nextDeliveryTag := d.nextDeliveryTag + 1 }
    else d
  let d2 := sendFrame d1 (Frame.method (publishFrame d1 routingKey publishOptions))
  let d3 := sendFrame d2 (Frame.content (publishContent d2 message mimeType headers properties))
  publishLoop message fuel 0 d3

/-- The Confirm.Select method frame built by `enableConfirms`. -/
def confirmFrame (d : QAmqpExchangePrivate) (noWait : Bool) : MethodFrame :=
  { channel := d.channelNumber, methodClass := fcConfirm, id := cmConfirm,
    arguments := [Field.int8 (qint8 (if noWait then 1 else 0))] }

/-- Member `QAmqpExchange::enableConfirms(noWait)`. -/
def enableConfirms (d : QAmqpExchangePrivate) (noWait : Bool) : QAmqpExchangePrivate :=
  let d1 := sendFrame d (Frame.method (confirmFrame d noWait))
  if d1.nextDeliveryTag = 0 then { d1 with nextDeliveryTag := 1 } else d1

/-- An incoming Basic.Ack (`id = bmAck`) or Basic.Nack frame for a delivery tag. -/
def ackFrame (d : QAmqpExchangePrivate) (id : Nat) (deliveryTag : Int) (multiple : Bool) :
    MethodFrame :=
  { channel := d.channelNumber, methodClass := fcBasic, id := id,
    arguments := [Field.longLong deliveryTag, Field.boolean multiple] }

/-- The bodies of the content-body frames sent in a log, in sending order. -/
def bodiesOf : List Effect → List QByteArray
  | [] => []
  | Effect.sendFrame (Frame.body f) :: rest => f.body :: bodiesOf rest
  | _ :: rest => bodiesOf rest

/-- How often a signal is emitted in a log. -/
def emissions (sig : Signal) (log : List Effect) : Nat :=
  log.count (Effect.emit sig)

end QAmqpExchangePrivate

/-! ## Publisher-confirm traces -/

/-- One step of the publisher-confirm life of an exchange. -/
inductive ConfirmStep where
  | enableConfirms (noWait : Bool)
  | publish (message : QByteArray) (routingKey mimeType : String) (headers : QAmqpTable)
      (properties : PropertyHash) (publishOptions : Int)
  | ack (deliveryTag : Int) (multiple : Bool)
  | nack (deliveryTag : Int) (multiple : Bool)
  deriving DecidableEq, Repr

/-- Bookkeeping of a trace: the publishes made while confirms were enabled, and the
tags that acks took out of the list. -/
structure Ledger where
  published : Nat
  resolved : Nat
  deriving DecidableEq, Repr

namespace ConfirmStep

open QAmqpExchangePrivate

/-- The exchange after one step; `none` when a publish does not finish within the
fuel. -/
def apply (fuel : Nat) (d : QAmqpExchangePrivate) : ConfirmStep → Option QAmqpExchangePrivate
  | enableConfirms noWait => some (QAmqpExchangePrivate.enableConfirms d noWait)
  | publish message routingKey mimeType headers properties publishOptions =>
    QAmqpExchangePrivate.publish fuel d message routingKey mimeType headers properties
      publishOptions
  | ack deliveryTag multiple => some (handleAckOrNack d (ackFrame d bmAck deliveryTag multiple))
  | nack deliveryTag multiple => some (handleAckOrNack d (ackFrame d bmNack deliveryTag multiple))

/-- The payload length of a publish step (0 for the other steps). -/
def payloadSize : ConfirmStep → Nat
  | publish message _ _ _ _ _ => message.length
  | _ => 0

/-- The ledger after a step that took the exchange from `d` to `d1`. -/
def book (l : Ledger) (d d1 : QAmqpExchangePrivate) : ConfirmStep → Ledger
  | publish _ _ _ _ _ _ =>
    if d.nextDeliveryTag > 0 then { l with published := l.published + 1 } else l
  | ack _ _ =>
    { l with resolved :=
        l.resolved + (d.unconfirmedDeliveryTags.length - d1.unconfirmedDeliveryTags.length) }
  | _ => l

/-- A whole trace, step by step, with its ledger. -/
def run (fuel : Nat) :
    QAmqpExchangePrivate × Ledger → List ConfirmStep → Option (QAmqpExchangePrivate × Ledger)
  | dl, [] => some dl
  | dl, step :: rest =>
    match apply fuel dl.1 step with
    | none => none
    | some d1 => run fuel (d1, book dl.2 dl.1 d1 step) rest

end ConfirmStep

/-! ## Queue entity (`amqp_queue.cpp`) -/

/-- A message under reassembly (`Message`, held through `MessagePtr`). -/
structure Message where
  routeKey : String
  exchangeName : String
  deliveryTag : Int
  property : PropertyHash
  payload : QByteArray
  leftSize : Int
  deriving DecidableEq, Repr

/-- Modelled from the spec: the constructor `Message()` is not under src/. The
strings, the payload and the property hash start empty; `leftSize0` is the value
the constructor leaves in `leftSize`, and the tag starts at 0. -/
def Message.new (leftSize0 : Int) : Message :=
  { routeKey := "", exchangeName := "", deliveryTag := 0, property := [], payload := [],
    leftSize := leftSize0 }

namespace QueuePrivate

/-- Modelled from the spec: AMQP 0-9-1 method ids of the Queue class
(`QueuePrivate::MethodId`, declared in a header that is not under src/):
Queue.Declare. -/
def miDeclare : Nat := 10

/-- Modelled from the spec: Queue.DeclareOk. -/
def miDeclareOk : Nat := 11

/-- Modelled from the spec: Queue.Bind. -/
def miBind : Nat := 20

/-- Modelled from the spec: Queue.BindOk. -/
def miBindOk : Nat := 21

/-- Modelled from the spec: Queue.Purge. -/
def miPurge : Nat := 30

/-- Modelled from the spec: Queue.PurgeOk. -/
def miPurgeOk : Nat := 31

/-- Modelled from the spec: Queue.Delete. -/
def miDelete : Nat := 40

/-- Modelled from the spec: Queue.DeleteOk. -/
def miDeleteOk : Nat := 41

/-- Modelled from the spec: Queue.Unbind. -/
def miUnbind : Nat := 50

/-- Modelled from the spec: Queue.UnbindOk. -/
def miUnbindOk : Nat := 51

/-- Modelled from the spec: Basic.ConsumeOk. -/
def bmConsumeOk : Nat := 21

/-- Modelled from the spec: Basic.Deliver. -/
def bmDeliver : Nat := 60

/-- Modelled from the spec: Basic.GetOk. -/
def bmGetOk : Nat := 71

/-- Modelled from the spec: Basic.GetEmpty. -/
def bmGetEmpty : Nat := 72

end QueuePrivate

/-- Fields of `QueuePrivate` (with those of its base class that the file uses) and
the effect log. `messages_` is the `QQueue` of pending messages, oldest first. -/
structure QueuePrivate where
  name : String
  number : Int
  opened : Bool
  options : Int
  delayedDeclare : Bool
  declared : Bool
  noAck : Bool
  recievingMessage : Bool
  consumerTag : String
  delayedBindings : List (String × String)
  messages_ : List Message
  log : List Effect
  deriving DecidableEq, Repr

namespace QueuePrivate

/-- The constructor `QueuePrivate(q)` followed by `init(channelNumber, parent)`. The
fields of the base class (not under src/) start with the channel not opened. -/
def init (name : String) (channelNumber : Int) : QueuePrivate :=
  { name := name, number := channelNumber, opened := false, options := 0,
    delayedDeclare := false, declared := false, noAck := true, recievingMessage := false,
    consumerTag := "", delayedBindings := [], messages_ := [], log := [] }

/-- The call `sendFrame(frame)`. -/
def sendFrame (d : QueuePrivate) (f : Frame) : QueuePrivate :=
  { d with log := d.log ++ [Effect.sendFrame f] }

/-- A signal emission (`Q_EMIT`, or `QMetaObject::invokeMethod` on a signal). -/
def emit (d : QueuePrivate) (s : Signal) : QueuePrivate :=
  { d with log := d.log ++ [Effect.emit s] }

/-- The Queue.Declare method frame built by `declare()`. -/
def declareFrame (d : QueuePrivate) : MethodFrame :=
  { channel := d.number, methodClass := fcQueue, id := miDeclare,
    arguments := [Field.int16 0, Field.shortString d.name, Field.int8 (qint8 d.options),
                  Field.table []] }

/-- Member `QueuePrivate::declare()`. -/
def declare (d : QueuePrivate) : QueuePrivate :=
  if ¬ d.opened then { d with delayedDeclare := true }
  else
    let d1 := sendFrame d (Frame.method (declareFrame d))
    { d1 with delayedDeclare := false }

/-- The flags byte of `remove`: `flag |= ifUnused ? 0x1 : 0` and so on. -/
def removeFlag (ifUnused ifEmpty noWait : Bool) : Int :=
  let flag : Nat := 0
  let flag := flag ||| (if ifUnused then 0x1 else 0)
  let flag := flag ||| (if ifEmpty then 0x2 else 0)
  let flag := flag ||| (if noWait then 0x4 else 0)
  qint8 flag

/-- The Queue.Delete method frame built by `remove`. -/
def deleteFrame (d : QueuePrivate) (ifUnused ifEmpty noWait : Bool) : MethodFrame :=
  { channel := d.number, methodClass := fcQueue, id := miDelete,
    arguments := [Field.int16 0, Field.shortString d.name,
                  Field.int8 (removeFlag ifUnused ifEmpty noWait)] }

/-- Member `QueuePrivate::remove(ifUnused, ifEmpty, noWait)`. -/
def remove (d : QueuePrivate) (ifUnused ifEmpty noWait : Bool) : QueuePrivate :=
  if ¬ d.declared then d
  else sendFrame d (Frame.method (deleteFrame d ifUnused ifEmpty noWait))

/-- The Queue.Bind method frame built by `bind`. -/
def bindFrame (d : QueuePrivate) (exchangeName key : String) : MethodFrame :=
  { channel := d.number, methodClass := fcQueue, id := miBind,
    arguments := [Field.int16 0, Field.shortString d.name, Field.shortString exchangeName,
                  Field.shortString key, Field.int8 (qint8 0), Field.table []] }

/-- Member `QueuePrivate::bind(exchangeName, key)`. -/
def bind (d : QueuePrivate) (exchangeName key : String) : QueuePrivate :=
  if ¬ d.opened then { d with delayedBindings := d.delayedBindings ++ [(exchangeName, key)] }
  else sendFrame d (Frame.method (bindFrame d exchangeName key))

/-- Member `Queue::declare(name, options)`: `setName(name)`, the options, then the
private `declare()`. -/
def declareNamed (d : QueuePrivate) (name : String) (options : Int) : QueuePrivate :=
  declare { d with name := name, options := options }

/-- Member `Queue::onOpen()`. The `foreach` walks a copy of the list taken when the
loop starts. -/
def onOpen (d : QueuePrivate) : QueuePrivate :=
  let d1 := if d.delayedDeclare then declare d else d
  if ¬ d1.delayedBindings.isEmpty then
    let d2 := d1.delayedBindings.foldl (fun s binding => bind s binding.1 binding.2) d1
    { d2 with delayedBindings := [] }
  else d1

/-- Member `QueuePrivate::declareOk(frame)`. -/
def declareOk (d : QueuePrivate) (frame : MethodFrame) : QueuePrivate :=
  let d1 := { d with declared := true }
  let d2 := { d1 with name := (readShortString frame.arguments).1 }
  emit d2 Signal.declared

/-- Member `QueuePrivate::deleteOk(frame)`. -/
def deleteOk (d : QueuePrivate) (_frame : MethodFrame) : QueuePrivate :=
  emit { d with declared := false } Signal.removed

/-- Member `QueuePrivate::bindOk(frame)`. -/
def bindOk (d : QueuePrivate) (_frame : MethodFrame) : QueuePrivate :=
  emit d (Signal.binded true)

/-- Member `QueuePrivate::unbindOk(frame)`. -/
def unbindOk (d : QueuePrivate) (_frame : MethodFrame) : QueuePrivate :=
  emit d (Signal.binded false)

/-- Member `QueuePrivate::consumeOk(frame)`. -/
def consumeOk (d : QueuePrivate) (frame : MethodFrame) : QueuePrivate :=
  let d1 := { d with declared := false }
  { d1 with consumerTag := (readShortString frame.arguments).1 }

/-- The message that `deliver` and `getOk` enqueue, from the rest of the arguments:
delivery tag, redelivered flag, exchange name, routing key. -/
def newMessage (leftSize0 : Int) (args : List Field) : Message :=
  let r1 := readLongLong args
  let r2 := readBool r1.2
  let r3 := readShortString r2.2
  let r4 := readShortString r3.2
  { Message.new leftSize0 with routeKey := r4.1, exchangeName := r3.1, deliveryTag := r1.1 }

/-- Member `QueuePrivate::getOk(frame)`. -/
def getOk (leftSize0 : Int) (d : QueuePrivate) (frame : MethodFrame) : QueuePrivate :=
  { d with messages_ := d.messages_ ++ [newMessage leftSize0 frame.arguments] }

/-- Member `QueuePrivate::deliver(frame)`. -/
def deliver (leftSize0 : Int) (d : QueuePrivate) (frame : MethodFrame) : QueuePrivate :=
  let r0 := readShortString frame.arguments
  let consumer_ := r0.1
  if consumer_ ≠ d.consumerTag then d
  else { d with messages_ := d.messages_ ++ [newMessage leftSize0 r0.2] }

/-- Member `QueuePrivate::_q_method(frame)`. `baseHandled` is what
`ChannelPrivate::_q_method(frame)` of the base class (not under src/) returned. -/
def _q_method (baseHandled : Bool) (leftSize0 : Int) (d : QueuePrivate) (frame : MethodFrame) :
    QueuePrivate × Bool :=
  if baseHandled then (d, true)
  else if frame.methodClass = fcQueue then
    let d1 :=
      if frame.id = miDeclareOk then declareOk d frame
      else if frame.id = miDelete then deleteOk d frame
      else if frame.id = miBindOk then bindOk d frame
      else if frame.id = miUnbindOk then unbindOk d frame
      else if frame.id = miPurgeOk then deleteOk d frame
      else d
    (d1, true)
  else if frame.methodClass = fcBasic then
    let d1 :=
      if frame.id = bmConsumeOk then consumeOk d frame
      else if frame.id = bmDeliver then deliver leftSize0 d frame
      else if frame.id = bmGetOk then getOk leftSize0 d frame
      else if frame.id = bmGetEmpty then emit d Signal.empty
      else d
    (d1, true)
  else (d, false)

/-- The update of the last pending message, `messages_.last()` being a reference. -/
def updateLast (ms : List Message) (f : Message → Message) : List Message :=
  match ms with
  | [] => []
  | [m] => [f m]
  | m :: rest => m :: updateLast rest f

/-- Member `QueuePrivate::_q_content(frame)`, as built for release (`Q_ASSERT`
compiled out): a frame of another channel is dropped by the guard. -/
def _q_content (d : QueuePrivate) (frame : ContentFrame) : QueuePrivate :=
  if frame.channel ≠ d.number then d
  else if d.messages_.isEmpty then d
  else
    { d with messages_ := updateLast d.messages_ (fun message =>
        let m1 := { message with leftSize := frame.bodySize }
        { m1 with property :=
            frame.properties.foldl (fun h kv => setProperty h kv.1 kv.2) m1.property }) }

/-- Member `QueuePrivate::_q_body(frame)`, as built for release (`Q_ASSERT`
compiled out): a frame of another channel is dropped by the guard. -/
def _q_body (d : QueuePrivate) (frame : ContentBodyFrame) : QueuePrivate :=
  if frame.channel ≠ d.number then d
  else if d.messages_.isEmpty then d
  else
    let d1 := { d with messages_ := updateLast d.messages_ (fun message =>
        let m1 := { message with payload := message.payload ++ frame.body }
        { m1 with leftSize := m1.leftSize - (frame.body.length : Int) }) }
    match d1.messages_.getLast? with
    | some message =>
      if message.leftSize = 0 ∧ d1.messages_.length = 1 then emit d1 Signal.messageReceived
      else d1
    | none => d1

/-- Member `Queue::hasMessage()`. -/
def hasMessage (d : QueuePrivate) : Bool :=
  match d.messages_ with
  | [] => false
  | q :: _ => q.leftSize = 0

/-- Body frames handled one after the other, each on the queue's own channel. -/
def receiveBodies (d : QueuePrivate) (fragments : List QByteArray) : QueuePrivate :=
  fragments.foldl (fun s fragment => _q_body s { channel := s.number, body := fragment }) d

/-- An incoming Basic.Deliver frame. -/
def deliverFrame (d : QueuePrivate) (consumerTag : String) (deliveryTag : Int)
    (redelivered : Bool) (exchangeName routingKey : String) : MethodFrame :=
  { channel := d.number, methodClass := fcBasic, id := bmDeliver,
    arguments := [Field.shortString consumerTag, Field.longLong deliveryTag,
                  Field.boolean redelivered, Field.shortString exchangeName,
                  Field.shortString routingKey] }

/-- An incoming Basic.GetOk frame. -/
def getOkFrame (d : QueuePrivate) (deliveryTag : Int) (redelivered : Bool)
    (exchangeName routingKey : String) : MethodFrame :=
  { channel := d.number, methodClass := fcBasic, id := bmGetOk,
    arguments := [Field.longLong deliveryTag, Field.boolean redelivered,
                  Field.shortString exchangeName, Field.shortString routingKey] }

/-- How often a signal is emitted in a log. -/
def emissions (sig : Signal) (log : List Effect) : Nat :=
  log.count (Effect.emit sig)

/-- A method frame that opens a delivery and is accepted by the queue: Basic.GetOk,
or Basic.Deliver with the queue's own consumer tag. -/
def acceptedFrame (d : QueuePrivate) (viaGet : Bool) (deliveryTag : Int) (redelivered : Bool)
    (exchangeName routingKey : String) : MethodFrame :=
  if viaGet then getOkFrame d deliveryTag redelivered exchangeName routingKey
  else deliverFrame d d.consumerTag deliveryTag redelivered exchangeName routingKey

/-- One delivery as the channel hands it over: the method frame (not consumed by the
base class), the content header, then the body frames in order. -/
def receiveDelivery (leftSize0 : Int) (d : QueuePrivate) (frame : MethodFrame)
    (bodySize : Int) (properties : PropertyHash) (fragments : List QByteArray) : QueuePrivate :=
  let d1 := (_q_method false leftSize0 d frame).1
  let d2 := _q_content d1 { channel := d.number, methodClass := fcBasic,
                            bodySize := bodySize, properties := properties }
  receiveBodies d2 fragments

/-- The method frames sent in a log, in sending order. -/
def methodsOf : List Effect → List MethodFrame
  | [] => []
  | Effect.sendFrame (Frame.method f) :: rest => f :: methodsOf rest
  | _ :: rest => methodsOf rest

/-- Modelled from the spec: the queue option flags (`Queue::QueueOption`, declared in
a header that is not under src/), at their bit positions in Queue.Declare: durable. -/
def Durable : Nat := 2

/-- Modelled from the spec: the auto-delete flag of Queue.Declare. -/
def AutoDelete : Nat := 8

/-- Member `Queue::declare()`: `declare(d->name, QueueOptions(Durable | AutoDelete))`. -/
def declareDefault (d : QueuePrivate) : QueuePrivate :=
  declareNamed d d.name ((Durable ||| AutoDelete : Nat) : Int)

/-- The payload bytes of a list of body fragments. -/
def totalSize (fragments : List QByteArray) : Int :=
  (fragments.flatten.length : Int)

end QueuePrivate

/-- A call of the application on a queue: `declare()`, `declare(name, options)` or
`bind(exchangeName, key)`. -/
inductive QueueCall where
  | declare
  | declareNamed (name : String) (options : Int)
  | bind (exchangeName key : String)
  deriving DecidableEq, Repr

namespace QueueCall

/-- The queue after a call. -/
def apply (d : QueuePrivate) : QueueCall → QueuePrivate
  | declare => QueuePrivate.declareDefault d
  | declareNamed name options => QueuePrivate.declareNamed d name options
  | bind exchangeName key => QueuePrivate.bind d exchangeName key

/-- Whether a call is one of the two declares. -/
def isDeclare : QueueCall → Bool
  | bind _ _ => false
  | _ => true

/-- The bindings asked for by a list of calls, in call order. -/
def bindings : List QueueCall → List (String × String)
  | [] => []
  | bind exchangeName key :: rest => (exchangeName, key) :: bindings rest
  | _ :: rest => bindings rest

/-- The queue after a list of calls, made in order. -/
def run (d : QueuePrivate) (calls : List QueueCall) : QueuePrivate :=
  calls.foldl apply d

/-- Modelled from the spec: the channel reports open. The base class (not under
src/) marks the channel as opened and then notifies the entity through `onOpen()`. -/
def channelOpens (d : QueuePrivate) : QueuePrivate :=
  QueuePrivate.onOpen { d with opened := true }

end QueueCall

/-! ## Channel notifications -/

/-- The call `QString::startsWith(s)`: the characters of `s` open the string. -/
def startsWith (str s : String) : Bool :=
  s.toList.isPrefixOf str.toList

namespace QAmqpExchangePrivate

/-- Whether the name is one of the broker's own: `name().isEmpty() ||
name().startsWith("amq.")`. -/
def builtinName (d : QAmqpExchangePrivate) : Bool :=
  d.name.isEmpty || startsWith d.name "amq."

/-- Member `QAmqpExchange::channelOpened()`. -/
def channelOpened (d : QAmqpExchangePrivate) : QAmqpExchangePrivate :=
  if (!d.delayedDeclare && builtinName d) = true then
    emit (newState d ExchangeState.ExchangeDeclaredState) Signal.declared
  else
    let d1 := newState d ExchangeState.ExchangeUndeclaredState
    if d1.delayedRemove then remove d1 d1.removeOptions
    else if d1.delayedDeclare then declare d1
    else d1

/-- Member `QAmqpExchange::isDeclared()`. -/
def isDeclared (d : QAmqpExchangePrivate) : Bool :=
  decide (d.exchangeState = ExchangeState.ExchangeDeclaredState)

/-- The frames of any kind sent in a log, in sending order. -/
def framesOf : List Effect → List Frame
  | [] => []
  | Effect.sendFrame f :: rest => f :: framesOf rest
  | _ :: rest => framesOf rest

end QAmqpExchangePrivate

namespace QueuePrivate

/-- Member `Queue::onClose()`: `d->remove(true, true)`. `noWait` is the default
value of the third parameter of `QueuePrivate::remove`, which is declared in a
header that is not under src/. -/
def onClose (noWait : Bool) (d : QueuePrivate) : QueuePrivate :=
  remove d true true noWait

/-- An incoming method frame of the Queue class with the given method id. -/
def queueFrame (d : QueuePrivate) (id : Nat) (arguments : List Field) : MethodFrame :=
  { channel := d.number, methodClass := fcQueue, id := id, arguments := arguments }

/-- The frames of any kind sent in a log, in sending order. -/
def framesOf : List Effect → List Frame
  | [] => []
  | Effect.sendFrame f :: rest => f :: framesOf rest
  | _ :: rest => framesOf rest

end QueuePrivate

/-! ## Incoming frames -/

/-- A frame handed to the queue by its channel. For a method frame, `baseHandled`
is what `ChannelPrivate::_q_method` of the base class returned for it. -/
inductive Incoming where
  | method (baseHandled : Bool) (f : MethodFrame)
  | content (f : ContentFrame)
  | body (f : ContentBodyFrame)
  deriving DecidableEq, Repr

namespace QueuePrivate

/-- The queue after one incoming frame: `_q_method`, `_q_content` or `_q_body`. -/
def receive (leftSize0 : Int) (d : QueuePrivate) : Incoming → QueuePrivate
  | Incoming.method baseHandled f => (_q_method baseHandled leftSize0 d f).1
  | Incoming.content f => _q_content d f
  | Incoming.body f => _q_body d f

/-- The queue after a list of incoming frames, handled in order. -/
def receiveAll (leftSize0 : Int) (d : QueuePrivate) (frames : List Incoming) : QueuePrivate :=
  frames.foldl (receive leftSize0) d

/-- Whether a frame keeps to the announced sizes: a header announces a body size of
at least 0, and a body frame on the queue's channel carries no more bytes than the
last pending message still expects. -/
def fits (d : QueuePrivate) : Incoming → Bool
  | Incoming.method _ _ => true
  | Incoming.content f => decide (0 ≤ f.bodySize)
  | Incoming.body f =>
    if f.channel = d.number then
      match d.messages_.getLast? with
      | some message => decide ((f.body.length : Int) ≤ message.leftSize)
      | none => true
    else true

/-- Whether every frame of a list keeps to the announced sizes when its turn comes. -/
def fitsAll (leftSize0 : Int) : QueuePrivate → List Incoming → Bool
  | _, [] => true
  | d, frame :: rest => fits d frame && fitsAll leftSize0 (receive leftSize0 d frame) rest

/-- An incoming method frame of the Basic class with the given method id. -/
def basicFrame (d : QueuePrivate) (id : Nat) (arguments : List Field) : MethodFrame :=
  { channel := d.number, methodClass := fcBasic, id := id, arguments := arguments }

end QueuePrivate

/-! ## Lemmas on the containers -/

theorem indexOf_eq_neg_one_or_nonneg (l : List Int) (t : Int) :
    indexOf l t = -1 ∨ 0 ≤ indexOf l t := by
  induction l with
  | nil => left; rfl
  | cons x rest ih =>
    unfold indexOf
    by_cases hx : x = t
    · right; simp [hx]
    · simp only [hx, if_false]
      rcases ih with h | h
      · left; simp [h]
      · right
        have : indexOf rest t ≠ -1 := by omega
        simp only [this, if_false]; omega

theorem indexOf_eq_neg_one_iff (l : List Int) (t : Int) : indexOf l t = -1 ↔ t ∉ l := by
  induction l with
  | nil => simp [indexOf]
  | cons x rest ih =>
    unfold indexOf
    by_cases hx : x = t
    · simp [hx]
    · have hne : ¬ t = x := fun h => hx h.symm
      simp only [hx, if_false, List.mem_cons, hne, false_or]
      rcases indexOf_eq_neg_one_or_nonneg rest t with h | h
      · simp only [h, if_true, true_iff]; exact ih.mp h
      · have h1 : indexOf rest t ≠ -1 := by omega
        simp only [h1, if_false]
        constructor
        · intro h2; omega
        · intro h2; exact absurd (ih.mpr h2) h1

/-- Dropping up to and including the first occurrence of `t` in a strictly
increasing list leaves the elements above `t`. -/
theorem drop_indexOf_of_increasing (l : List Int) (t : Int)
    (hl : l.Pairwise (fun a b => a < b)) (ht : t ∈ l) :
    l.drop (indexOf l t + 1).toNat = l.filter (fun x => decide (t < x)) := by
  induction l with
  | nil => simp at ht
  | cons x rest ih =>
    rw [List.pairwise_cons] at hl
    unfold indexOf
    by_cases hx : x = t
    · subst hx
      simp only [if_true]
      have hall : ∀ y ∈ rest, decide (x < y) = true := fun y hy => by simpa using hl.1 y hy
      simp [List.filter_cons, List.filter_eq_self.mpr hall]
    · have hne : ¬ t = x := fun h => hx h.symm
      have hmem : t ∈ rest := by
        rcases List.mem_cons.mp ht with h | h
        · exact absurd h hne
        · exact h
      have hlt : x < t := hl.1 t hmem
      have h1 : indexOf rest t ≠ -1 := fun h => (indexOf_eq_neg_one_iff rest t).mp h hmem
      have h0 : 0 ≤ indexOf rest t := by
        rcases indexOf_eq_neg_one_or_nonneg rest t with h | h
        · exact absurd h h1
        · exact h
      simp only [hx, if_false, h1]
      have e : (indexOf rest t + 1 + 1).toNat = (indexOf rest t + 1).toNat + 1 := by omega
      rw [e, List.drop_succ_cons, ih hl.2 hmem]
      have : ¬ t < x := by omega
      simp [List.filter_cons, this]

/-- Erasing the first occurrence of `t` in a list without duplicates leaves the
elements different from `t`. -/
theorem eraseIdx_indexOf_of_nodup (l : List Int) (t : Int) (hl : l.Nodup) (ht : t ∈ l) :
    l.eraseIdx (indexOf l t).toNat = l.filter (fun x => decide (x ≠ t)) := by
  induction l with
  | nil => simp at ht
  | cons x rest ih =>
    rw [List.nodup_cons] at hl
    unfold indexOf
    by_cases hx : x = t
    · subst hx
      have hall : ∀ y ∈ rest, decide (y ≠ x) = true := fun y hy => by
        have : y ≠ x := fun h => hl.1 (h ▸ hy)
        simpa using this
      have hf : rest.filter (fun y => decide (y ≠ x)) = rest := List.filter_eq_self.mpr hall
      have e0 : (0 : Int).toNat = 0 := rfl
      simp only [if_true, e0, List.eraseIdx_cons_zero, List.filter_cons, ne_eq,
        not_true_eq_false, decide_False, Bool.false_eq_true, if_false]
      exact hf.symm
    · have hne : ¬ t = x := fun h => hx h.symm
      have hmem : t ∈ rest := by
        rcases List.mem_cons.mp ht with h | h
        · exact absurd h hne
        · exact h
      have h1 : indexOf rest t ≠ -1 := fun h => (indexOf_eq_neg_one_iff rest t).mp h hmem
      have h0 : 0 ≤ indexOf rest t := by
        rcases indexOf_eq_neg_one_or_nonneg rest t with h | h
        · exact absurd h h1
        · exact h
      simp only [hx, if_false, h1]
      have e : (indexOf rest t + 1).toNat = (indexOf rest t).toNat + 1 := by omega
      rw [e, List.eraseIdx_cons_succ, ih hl.2 hmem]
      simp [List.filter_cons, hx]

namespace QAmqpExchangePrivate

/-! ## Acknowledgements -/

theorem handleAck_of_not_mem (d : QAmqpExchangePrivate) (t : Int) (multiple : Bool)
    (ht : t ≠ 0) (hmem : t ∉ d.unconfirmedDeliveryTags) :
    handleAckOrNack d (ackFrame d bmAck t multiple) = d := by
  have h := (indexOf_eq_neg_one_iff d.unconfirmedDeliveryTags t).mpr hmem
  simp [handleAckOrNack, ackFrame, readLongLong, readBool, ht, h]

theorem handleAck_multiple_of_mem (d : QAmqpExchangePrivate) (t : Int)
    (ht : t ≠ 0) (hmem : t ∈ d.unconfirmedDeliveryTags) :
    (handleAckOrNack d (ackFrame d bmAck t true)).unconfirmedDeliveryTags
      = d.unconfirmedDeliveryTags.drop (indexOf d.unconfirmedDeliveryTags t + 1).toNat := by
  have h : indexOf d.unconfirmedDeliveryTags t ≠ -1 :=
    fun h => (indexOf_eq_neg_one_iff _ t).mp h hmem
  simp only [handleAckOrNack, ackFrame, readLongLong, readBool, ht, h, if_true, if_false,
    removeRange, List.take_zero, List.nil_append, Nat.zero_add]
  split <;> rfl

theorem handleAck_single_of_mem (d : QAmqpExchangePrivate) (t : Int)
    (ht : t ≠ 0) (hmem : t ∈ d.unconfirmedDeliveryTags) :
    (handleAckOrNack d (ackFrame d bmAck t false)).unconfirmedDeliveryTags
      = d.unconfirmedDeliveryTags.eraseIdx (indexOf d.unconfirmedDeliveryTags t).toNat := by
  have h : indexOf d.unconfirmedDeliveryTags t ≠ -1 :=
    fun h => (indexOf_eq_neg_one_iff _ t).mp h hmem
  simp only [handleAckOrNack, ackFrame, readLongLong, readBool, ht, h, if_true, if_false,
    removeAt, Bool.false_eq_true]
  split <;> rfl

/-- C1 (amended): an ack of a non-zero tag `t` with multiple=true on a strictly
increasing list leaves exactly the tags above `t`, in order, when `t` is in the
list; when `t` is not in the list the ack changes nothing at all. -/
theorem ack_multiple_removes_up_to_tag (d : QAmqpExchangePrivate) (t : Int)
    (hl : d.unconfirmedDeliveryTags.Pairwise (fun a b => a < b)) (ht : t ≠ 0) :
    (t ∈ d.unconfirmedDeliveryTags →
      (handleAckOrNack d (ackFrame d bmAck t true)).unconfirmedDeliveryTags
        = d.unconfirmedDeliveryTags.filter (fun x => decide (t < x)))
    ∧ (t ∉ d.unconfirmedDeliveryTags →
      handleAckOrNack d (ackFrame d bmAck t true) = d) := by
  constructor
  · intro hmem
    rw [handleAck_multiple_of_mem d t ht hmem]
    exact drop_indexOf_of_increasing _ t hl hmem
  · intro hmem
    exact handleAck_of_not_mem d t true ht hmem

/-- Witness of C1 (amended): tags 1, 2, 3 pending, ack of 2 with multiple=true
leaves tag 3. -/
theorem ack_multiple_removes_up_to_tag_witness :
    (handleAckOrNack
        { init "logs" 1 4096 with nextDeliveryTag := 4, unconfirmedDeliveryTags := [1, 2, 3] }
        (ackFrame (init "logs" 1 4096) bmAck 2 true)).unconfirmedDeliveryTags = [3] :=
  (ack_multiple_removes_up_to_tag
    { init "logs" 1 4096 with nextDeliveryTag := 4, unconfirmedDeliveryTags := [1, 2, 3] }
    2 (by decide) (by decide)).1 (by decide)

/-- Counterexample to C1 as stated: with tags 1 and 3 pending (a strictly increasing
list, reached by three publishes and an ack of tag 2), an ack of the absent tag 2
with multiple=true leaves both tags, although tag 1 is at most 2. -/
theorem ack_multiple_absent_tag_counterexample :
    (ConfirmStep.run 0 (init "logs" 1 4096, { published := 0, resolved := 0 })
        [ConfirmStep.enableConfirms false,
         ConfirmStep.publish [] "" "text/plain" [] [] 0,
         ConfirmStep.publish [] "" "text/plain" [] [] 0,
         ConfirmStep.publish [] "" "text/plain" [] [] 0,
         ConfirmStep.ack 2 false]).map (fun r => r.1.unconfirmedDeliveryTags) = some [1, 3]
    ∧ List.Pairwise (fun a b => a < b) ([1, 3] : List Int)
    ∧ (handleAckOrNack
        { init "logs" 1 4096 with nextDeliveryTag := 4, unconfirmedDeliveryTags := [1, 3] }
        (ackFrame (init "logs" 1 4096) bmAck 2 true)).unconfirmedDeliveryTags = [1, 3]
    ∧ (handleAckOrNack
        { init "logs" 1 4096 with nextDeliveryTag := 4, unconfirmedDeliveryTags := [1, 3] }
        (ackFrame (init "logs" 1 4096) bmAck 2 true)).unconfirmedDeliveryTags
      ≠ ([1, 3] : List Int).filter (fun x => decide (2 < x)) := by
  decide

/-- C2: an ack of a non-zero tag `t` with multiple=false on a list without
duplicates removes `t` and keeps every other entry in order when `t` is in the
list; when `t` is not in the list the exchange, its effect log included, is
unchanged, so no notification is emitted. -/
theorem ack_single_removes_tag (d : QAmqpExchangePrivate) (t : Int)
    (hl : d.unconfirmedDeliveryTags.Nodup) (ht : t ≠ 0) :
    (t ∈ d.unconfirmedDeliveryTags →
      (handleAckOrNack d (ackFrame d bmAck t false)).unconfirmedDeliveryTags
        = d.unconfirmedDeliveryTags.filter (fun x => decide (x ≠ t)))
    ∧ (t ∉ d.unconfirmedDeliveryTags →
      handleAckOrNack d (ackFrame d bmAck t false) = d) := by
  constructor
  · intro hmem
    rw [handleAck_single_of_mem d t ht hmem]
    exact eraseIdx_indexOf_of_nodup _ t hl hmem
  · intro hmem
    exact handleAck_of_not_mem d t false ht hmem

/-- Witness of C2: tags 1, 2, 3 pending, ack of 2 with multiple=false leaves 1, 3. -/
theorem ack_single_removes_tag_witness :
    (handleAckOrNack
        { init "logs" 1 4096 with nextDeliveryTag := 4, unconfirmedDeliveryTags := [1, 2, 3] }
        (ackFrame (init "logs" 1 4096) bmAck 2 false)).unconfirmedDeliveryTags = [1, 3] :=
  (ack_single_removes_tag
    { init "logs" 1 4096 with nextDeliveryTag := 4, unconfirmedDeliveryTags := [1, 2, 3] }
    2 (by decide) (by decide)).1 (by decide)

/-- C3: an ack of delivery tag 0 empties the list of unconfirmed tags, whatever
the list holds and whatever the multiple flag. -/
theorem ack_zero_clears (d : QAmqpExchangePrivate) (multiple : Bool) :
    (handleAckOrNack d (ackFrame d bmAck 0 multiple)).unconfirmedDeliveryTags = [] := by
  simp [handleAckOrNack, ackFrame, readLongLong, readBool, emit]

/-! ## The publisher-confirm invariant -/

theorem handleAckOrNack_sublist (d : QAmqpExchangePrivate) (frame : MethodFrame) :
    (handleAckOrNack d frame).unconfirmedDeliveryTags.Sublist d.unconfirmedDeliveryTags := by
  unfold handleAckOrNack
  simp only
  split
  · split
    · exact List.Sublist.refl _
    · rename_i d1 heq
      have hsub : d1.unconfirmedDeliveryTags.Sublist d.unconfirmedDeliveryTags := by
        split at heq
        · cases heq; exact List.nil_sublist _
        · split at heq
          · cases heq
          · split at heq
            · cases heq
              simp only [removeRange, List.take_zero, List.nil_append, Nat.zero_add]
              exact List.drop_sublist _ _
            · cases heq
              exact List.eraseIdx_sublist _ _
      split
      · exact hsub
      · exact hsub
  · exact List.Sublist.refl _

theorem handleAckOrNack_nextDeliveryTag (d : QAmqpExchangePrivate) (frame : MethodFrame) :
    (handleAckOrNack d frame).nextDeliveryTag = d.nextDeliveryTag := by
  unfold handleAckOrNack
  simp only
  split
  · split
    · rfl
    · rename_i d1 heq
      have hn : d1.nextDeliveryTag = d.nextDeliveryTag := by
        split at heq
        · cases heq; rfl
        · split at heq
          · cases heq
          · split at heq <;> (cases heq; rfl)
      split
      · exact hn
      · exact hn
  · rfl

theorem handleNack_eq (d : QAmqpExchangePrivate) (t : Int) (multiple : Bool) :
    handleAckOrNack d (ackFrame d bmNack t multiple) = d := by
  simp [handleAckOrNack, ackFrame, bmNack, bmAck]

theorem publishLoop_tags (message : QByteArray) (fuel : Nat) :
    ∀ (sent : Int) (d d1 : QAmqpExchangePrivate), publishLoop message fuel sent d = some d1 →
      d1.unconfirmedDeliveryTags = d.unconfirmedDeliveryTags
      ∧ d1.nextDeliveryTag = d.nextDeliveryTag := by
  induction fuel with
  | zero =>
    intro sent d d1 h
    unfold publishLoop at h
    split at h
    · cases h
    · cases h; exact ⟨rfl, rfl⟩
  | succ fuel ih =>
    intro sent d d1 h
    unfold publishLoop at h
    split at h
    · have h1 := ih _ _ _ h
      exact h1
    · cases h; exact ⟨rfl, rfl⟩

theorem publish_tags (fuel : Nat) (d d1 : QAmqpExchangePrivate) (message : QByteArray)
    (routingKey mimeType : String) (headers : QAmqpTable) (properties : PropertyHash)
    (publishOptions : Int)
    (h : publish fuel d message routingKey mimeType headers properties publishOptions = some d1) :
    (0 < d.nextDeliveryTag →
      d1.unconfirmedDeliveryTags = d.unconfirmedDeliveryTags ++ [d.nextDeliveryTag]
      ∧ d1.nextDeliveryTag = d.nextDeliveryTag + 1)
    ∧ (¬ 0 < d.nextDeliveryTag →
      d1.unconfirmedDeliveryTags = d.unconfirmedDeliveryTags
      ∧ d1.nextDeliveryTag = d.nextDeliveryTag) := by
  unfold publish at h
  have h1 := publishLoop_tags message fuel _ _ _ h
  constructor
  · intro hpos
    simpa [sendFrame, hpos] using h1
  · intro hneg
    simpa [sendFrame, hneg] using h1

/-- The invariant of the publisher-confirm state. -/
theorem run_invariant (fuel : Nat) (steps : List ConfirmStep) :
    ∀ (d : QAmqpExchangePrivate) (l : Ledger) (d1 : QAmqpExchangePrivate) (l1 : Ledger),
      ConfirmStep.run fuel (d, l) steps = some (d1, l1) →
      d.unconfirmedDeliveryTags.Pairwise (fun a b => a < b) →
      (∀ x ∈ d.unconfirmedDeliveryTags, 1 ≤ x ∧ x < d.nextDeliveryTag) →
      d.unconfirmedDeliveryTags.length + l.resolved = l.published →
      d1.unconfirmedDeliveryTags.Pairwise (fun a b => a < b)
      ∧ (∀ x ∈ d1.unconfirmedDeliveryTags, 1 ≤ x ∧ x < d1.nextDeliveryTag)
      ∧ d1.unconfirmedDeliveryTags.length + l1.resolved = l1.published := by
  induction steps with
  | nil =>
    intro d l d1 l1 h hs hb hl
    simp only [ConfirmStep.run, Option.some.injEq, Prod.mk.injEq] at h
    obtain ⟨rfl, rfl⟩ := h
    exact ⟨hs, hb, hl⟩
  | cons step rest ih =>
    intro d l d1 l1 h hs hb hl
    simp only [ConfirmStep.run] at h
    split at h
    · cases h
    · rename_i d2 happ
      apply ih _ _ _ _ h
      · -- sortedness
        cases step with
        | enableConfirms noWait =>
          simp only [ConfirmStep.apply, Option.some.injEq] at happ
          subst happ
          unfold enableConfirms; simp only [sendFrame]
          split <;> exact hs
        | publish message routingKey mimeType headers properties publishOptions =>
          simp only [ConfirmStep.apply] at happ
          have hp := publish_tags _ _ _ _ _ _ _ _ _ happ
          by_cases hpos : 0 < d.nextDeliveryTag
          · rw [(hp.1 hpos).1, List.pairwise_append]
            refine ⟨hs, List.pairwise_singleton _ _, ?_⟩
            intro a ha b hb1
            rw [List.mem_singleton] at hb1
            subst hb1
            exact (hb a ha).2
          · rw [(hp.2 hpos).1]; exact hs
        | ack deliveryTag multiple =>
          simp only [ConfirmStep.apply, Option.some.injEq] at happ
          subst happ
          exact hs.sublist (handleAckOrNack_sublist _ _)
        | nack deliveryTag multiple =>
          simp only [ConfirmStep.apply, Option.some.injEq] at happ
          subst happ
          exact hs.sublist (handleAckOrNack_sublist _ _)
      · -- bounds
        cases step with
        | enableConfirms noWait =>
          simp only [ConfirmStep.apply, Option.some.injEq] at happ
          subst happ
          unfold enableConfirms; simp only [sendFrame]
          split
          · rename_i h0
            intro x hx
            have := hb x hx
            omega
          · exact hb
        | publish message routingKey mimeType headers properties publishOptions =>
          simp only [ConfirmStep.apply] at happ
          have hp := publish_tags _ _ _ _ _ _ _ _ _ happ
          by_cases hpos : 0 < d.nextDeliveryTag
          · rw [(hp.1 hpos).1, (hp.1 hpos).2]
            intro x hx
            rcases List.mem_append.mp hx with hx | hx
            · have := hb x hx; omega
            · rw [List.mem_singleton] at hx; omega
          · rw [(hp.2 hpos).1, (hp.2 hpos).2]; exact hb
        | ack deliveryTag multiple =>
          simp only [ConfirmStep.apply, Option.some.injEq] at happ
          subst happ
          intro x hx
          rw [handleAckOrNack_nextDeliveryTag]
          exact hb x ((handleAckOrNack_sublist _ _).subset hx)
        | nack deliveryTag multiple =>
          simp only [ConfirmStep.apply, Option.some.injEq] at happ
          subst happ
          intro x hx
          rw [handleAckOrNack_nextDeliveryTag]
          exact hb x ((handleAckOrNack_sublist _ _).subset hx)
      · -- ledger
        cases step with
        | enableConfirms noWait =>
          simp only [ConfirmStep.apply, Option.some.injEq] at happ
          subst happ
          have : (enableConfirms d noWait).unconfirmedDeliveryTags = d.unconfirmedDeliveryTags := by
            unfold enableConfirms; simp only [sendFrame]; split <;> rfl
          simp only [ConfirmStep.book, this]; exact hl
        | publish message routingKey mimeType headers properties publishOptions =>
          simp only [ConfirmStep.apply] at happ
          have hp := publish_tags _ _ _ _ _ _ _ _ _ happ
          by_cases hpos : 0 < d.nextDeliveryTag
          · simp only [ConfirmStep.book, gt_iff_lt, hpos, if_true, (hp.1 hpos).1,
              List.length_append, List.length_singleton]
            omega
          · simp only [ConfirmStep.book, gt_iff_lt, hpos, if_false, (hp.2 hpos).1]
            exact hl
        | ack deliveryTag multiple =>
          simp only [ConfirmStep.apply, Option.some.injEq] at happ
          subst happ
          have hle := (handleAckOrNack_sublist d (ackFrame d bmAck deliveryTag multiple)).length_le
          simp only [ConfirmStep.book]
          omega
        | nack deliveryTag multiple =>
          simp only [ConfirmStep.apply, Option.some.injEq] at happ
          subst happ
          rw [handleNack_eq]
          simp only [ConfirmStep.book]; exact hl

/-! ## Fragmentation of a published payload -/

theorem mid_eq_take_drop (b : QByteArray) (pos len : Nat) (hpos : pos ≤ b.length) :
    mid b (pos : Int) (len : Int) = (b.drop pos).take len := by
  unfold mid
  have h1 : ¬ ((pos : Int) > (b.length : Int)) := by omega
  have h2 : ¬ ((pos : Int) < 0) := by omega
  simp only [h1, h2, if_false, Int.toNat_ofNat]
  split
  · rename_i h
    have hlen : b.length - pos ≤ len := by omega
    rw [List.take_of_length_le]
    rw [List.length_drop]; exact hlen
  · rfl

theorem ceil_step (n c : Nat) (hc : 0 < c) (hn : 0 < n) :
    (n + c - 1) / c = (n - c + c - 1) / c + 1 := by
  have e : n + c - 1 = (n - 1) + c := by omega
  rw [e, Nat.add_div_right _ hc]
  congr 1
  by_cases h : c ≤ n
  · have e1 : n - c + c - 1 = n - 1 := by omega
    exact congrArg (fun k => k / c) e1.symm
  · rw [Nat.div_eq_of_lt (by omega), Nat.div_eq_of_lt (by omega)]

/-- What the body loop does when the chunk size `frameMax - 7` is positive and the
fuel covers the bytes still to send. -/
theorem publishLoop_spec (message : QByteArray) (c : Nat) (hc : 0 < c) (fuel : Nat) :
    ∀ (s : Nat) (d : QAmqpExchangePrivate), d.frameMax - 7 = (c : Int) →
      message.length - s ≤ fuel →
      ∃ bodies : List QByteArray,
        publishLoop message fuel (s : Int) d
          = some { d with log := d.log ++ bodies.map (fun b =>
              Effect.sendFrame (Frame.body { channel := d.channelNumber, body := b })) }
        ∧ bodies.flatten = message.drop s
        ∧ (∀ b ∈ bodies, b.length ≤ c)
        ∧ bodies.length = (message.length - s + c - 1) / c := by
  induction fuel with
  | zero =>
    intro s d _ hfuel
    refine ⟨[], ?_, ?_, ?_, ?_⟩
    · unfold publishLoop
      have : ¬ ((s : Int) < (message.length : Int)) := by omega
      simp [this]
    · rw [List.drop_eq_nil_of_le (by omega)]; rfl
    · intro b hb; cases hb
    · have : message.length - s + c - 1 < c := by omega
      rw [Nat.div_eq_of_lt this]; rfl
  | succ fuel ih =>
    intro s d hd hfuel
    by_cases hlt : s < message.length
    · have hs : (s : Int) < (message.length : Int) := by omega
      obtain ⟨bodies, hrun, hjoin, hlen, hcount⟩ :=
        ih (s + c)
          (sendFrame d (Frame.body { channel := d.channelNumber,
                                     body := mid message (s : Int) (c : Int) }))
          (by simpa [sendFrame] using hd) (by omega)
      refine ⟨(message.drop s).take c :: bodies, ?_, ?_, ?_, ?_⟩
      · unfold publishLoop
        simp only [hs, if_true, hd]
        have e : (s : Int) + (c : Int) = ((s + c : Nat) : Int) := by push_cast; rfl
        rw [e, hrun, mid_eq_take_drop message s c (by omega)]
        simp [sendFrame, List.append_assoc]
      · rw [List.flatten_cons, hjoin]
        have : message.drop (s + c) = (message.drop s).drop c := by
          rw [List.drop_drop, Nat.add_comm]
        rw [this, List.take_append_drop]
      · intro b hb
        rcases List.mem_cons.mp hb with h | h
        · subst h
          rw [List.length_take]; exact Nat.min_le_left _ _
        · exact hlen b h
      · rw [List.length_cons, hcount]
        have e2 : message.length - (s + c) = message.length - s - c := by omega
        rw [e2]
        exact (ceil_step (message.length - s) c hc (by omega)).symm
    · refine ⟨[], ?_, ?_, ?_, ?_⟩
      · unfold publishLoop
        have : ¬ ((s : Int) < (message.length : Int)) := by omega
        simp [this]
      · rw [List.drop_eq_nil_of_le (by omega)]; rfl
      · intro b hb; cases hb
      · have : message.length - s + c - 1 < c := by omega
        rw [Nat.div_eq_of_lt this]; rfl

/-- The frames of one publish, for a maximal frame size above 7 and fuel that
covers the payload. -/
theorem publish_spec (fuel : Nat) (d : QAmqpExchangePrivate) (message : QByteArray)
    (routingKey mimeType : String) (headers : QAmqpTable) (properties : PropertyHash)
    (publishOptions : Int) (hF : 7 < d.frameMax) (hfuel : message.length ≤ fuel) :
    ∃ (d1 : QAmqpExchangePrivate) (header : ContentFrame) (bodies : List QByteArray),
      publish fuel d message routingKey mimeType headers properties publishOptions = some d1
      ∧ d1.log = d.log
          ++ [Effect.sendFrame (Frame.method (publishFrame d routingKey publishOptions)),
              Effect.sendFrame (Frame.content header)]
          ++ bodies.map (fun b =>
              Effect.sendFrame (Frame.body { channel := d.channelNumber, body := b }))
      ∧ header.bodySize = (message.length : Int)
      ∧ bodies.flatten = message
      ∧ (∀ b ∈ bodies, (b.length : Int) ≤ d.frameMax - 7)
      ∧ bodies.length = (message.length + (d.frameMax - 7).toNat - 1) / (d.frameMax - 7).toNat := by
  have hc : 0 < (d.frameMax - 7).toNat := by omega
  have hcast : d.frameMax - 7 = (((d.frameMax - 7).toNat : Nat) : Int) := by omega
  have hloop : ∀ d3 : QAmqpExchangePrivate, d3.frameMax = d.frameMax →
      d3.channelNumber = d.channelNumber →
      ∃ (d1 : QAmqpExchangePrivate) (bodies : List QByteArray),
        publishLoop message fuel 0 d3 = some d1
        ∧ d1.log = d3.log ++ bodies.map (fun b =>
              Effect.sendFrame (Frame.body { channel := d.channelNumber, body := b }))
        ∧ bodies.flatten = message
        ∧ (∀ b ∈ bodies, (b.length : Int) ≤ d.frameMax - 7)
        ∧ bodies.length
            = (message.length + (d.frameMax - 7).toNat - 1) / (d.frameMax - 7).toNat := by
    intro d3 hfm hch
    obtain ⟨bodies, hrun, hjoin, hlen, hcount⟩ :=
      publishLoop_spec message (d.frameMax - 7).toNat hc fuel 0 d3
        (by rw [hfm]; exact hcast) (by omega)
    refine ⟨_, bodies, hrun, ?_, ?_, ?_, ?_⟩
    · rw [← hch]
    · rw [hjoin]; rfl
    · intro b hb; have := hlen b hb; omega
    · rw [hcount]; rfl
  by_cases hpos : d.nextDeliveryTag > 0
  · let dA : QAmqpExchangePrivate :=
      { d with unconfirmedDeliveryTags := d.unconfirmedDeliveryTags ++ [d.nextDeliveryTag],
               nextDeliveryTag := d.nextDeliveryTag + 1 }
    let dB := sendFrame dA (Frame.method (publishFrame dA routingKey publishOptions))
    let hdr := publishContent dB message mimeType headers properties
    obtain ⟨d1, bodies, hrun, hlog, hjoin, hlen, hcount⟩ :=
      hloop (sendFrame dB (Frame.content hdr)) rfl rfl
    refine ⟨d1, hdr, bodies, ?_, ?_, rfl, hjoin, hlen, hcount⟩
    · unfold publish
      simp only [hpos, if_true]
      exact hrun
    · rw [hlog]
      simp [dB, dA, hdr, sendFrame, publishFrame, List.append_assoc]
  · let dB := sendFrame d (Frame.method (publishFrame d routingKey publishOptions))
    let hdr := publishContent dB message mimeType headers properties
    obtain ⟨d1, bodies, hrun, hlog, hjoin, hlen, hcount⟩ :=
      hloop (sendFrame dB (Frame.content hdr)) rfl rfl
    refine ⟨d1, hdr, bodies, ?_, ?_, rfl, hjoin, hlen, hcount⟩
    · unfold publish
      simp only [hpos, if_false]
      exact hrun
    · rw [hlog]
      simp [dB, hdr, sendFrame, publishFrame, List.append_assoc]

theorem ceil_div_eq (S c : Nat) (hc : 0 < c) :
    ⌈(S : ℚ) / (c : ℚ)⌉₊ = (S + c - 1) / c := by
  have hcq : (0 : ℚ) < (c : ℚ) := by exact_mod_cast hc
  rcases Nat.eq_zero_or_pos S with h0 | hS
  · subst h0
    have : (0 + c - 1) / c = 0 := Nat.div_eq_of_lt (by omega)
    rw [this]
    simp
  · have hdiv := Nat.div_add_mod (S + c - 1) c
    have hmod := Nat.mod_lt (S + c - 1) hc
    set n := (S + c - 1) / c with hn
    have hn1 : 1 ≤ n := by
      rw [hn]; exact (Nat.one_le_div_iff hc).mpr (by omega)
    have hle : S ≤ c * n := by
      by_contra hcon
      push_neg at hcon
      have : c * n + c ≤ S + c - 1 := by omega
      omega
    have hlt : c * (n - 1) < S := by
      have e : c * n = c * (n - 1) + c := by
        have : n = (n - 1) + 1 := by omega
        conv_lhs => rw [this, Nat.mul_add, Nat.mul_one]
      omega
    rw [Nat.ceil_eq_iff (by omega)]
    constructor
    · rw [lt_div_iff₀ hcq]
      have : ((c * (n - 1) : Nat) : ℚ) < (S : ℚ) := by exact_mod_cast hlt
      push_cast at this ⊢
      linarith [this, mul_comm (c : ℚ) ((n : ℚ) - 1)]
    · rw [div_le_iff₀ hcq]
      have : ((S : Nat) : ℚ) ≤ ((c * n : Nat) : ℚ) := by exact_mod_cast hle
      push_cast at this
      linarith [this, mul_comm (c : ℚ) (n : ℚ)]

theorem publishLoop_frameMax (message : QByteArray) (fuel : Nat) :
    ∀ (sent : Int) (d d1 : QAmqpExchangePrivate), publishLoop message fuel sent d = some d1 →
      d1.frameMax = d.frameMax := by
  induction fuel with
  | zero =>
    intro sent d d1 h
    unfold publishLoop at h
    split at h
    · cases h
    · cases h; rfl
  | succ fuel ih =>
    intro sent d d1 h
    unfold publishLoop at h
    split at h
    · have h1 := ih _ _ _ h
      exact h1
    · cases h; rfl

theorem apply_frameMax (fuel : Nat) (d d1 : QAmqpExchangePrivate) (step : ConfirmStep)
    (h : ConfirmStep.apply fuel d step = some d1) : d1.frameMax = d.frameMax := by
  cases step with
  | enableConfirms noWait =>
    simp only [ConfirmStep.apply, Option.some.injEq] at h
    subst h
    unfold enableConfirms; simp only [sendFrame]; split <;> rfl
  | publish message routingKey mimeType headers properties publishOptions =>
    simp only [ConfirmStep.apply] at h
    unfold publish at h
    have h1 := publishLoop_frameMax _ _ _ _ _ h
    rw [h1]
    simp only [sendFrame]
    split <;> rfl
  | ack deliveryTag multiple =>
    simp only [ConfirmStep.apply, Option.some.injEq] at h
    subst h
    unfold handleAckOrNack
    simp only
    split
    · split
      · rfl
      · rename_i d2 heq
        have hn : d2.frameMax = d.frameMax := by
          split at heq
          · cases heq; rfl
          · split at heq
            · cases heq
            · split at heq <;> (cases heq; rfl)
        split
        · exact hn
        · exact hn
    · rfl
  | nack deliveryTag multiple =>
    simp only [ConfirmStep.apply, Option.some.injEq] at h
    subst h
    rw [handleNack_eq]

/-- A trace runs to its end when the maximal frame size is above 7 and the fuel
covers every payload. -/
theorem run_total (fuel : Nat) (steps : List ConfirmStep) :
    ∀ (d : QAmqpExchangePrivate) (l : Ledger), 7 < d.frameMax →
      (∀ step ∈ steps, step.payloadSize ≤ fuel) →
      (ConfirmStep.run fuel (d, l) steps).isSome = true := by
  induction steps with
  | nil => intro d l _ _; rfl
  | cons step rest ih =>
    intro d l hF hfuel
    have hrest : ∀ st ∈ rest, st.payloadSize ≤ fuel :=
      fun st hst => hfuel st (List.mem_cons_of_mem _ hst)
    have hstep : step.payloadSize ≤ fuel := hfuel step (List.mem_cons_self _ _)
    have hsome : ∃ d1, ConfirmStep.apply fuel d step = some d1 := by
      cases step with
      | enableConfirms noWait => exact ⟨_, rfl⟩
      | publish message routingKey mimeType headers properties publishOptions =>
        obtain ⟨d1, _, _, h, _⟩ :=
          publish_spec fuel d message routingKey mimeType headers properties publishOptions
            hF hstep
        exact ⟨d1, h⟩
      | ack deliveryTag multiple => exact ⟨_, rfl⟩
      | nack deliveryTag multiple => exact ⟨_, rfl⟩
    obtain ⟨d1, h1⟩ := hsome
    simp only [ConfirmStep.run, h1]
    exact ih d1 _ (by rw [apply_frameMax fuel d d1 step h1]; exact hF) hrest

/-- C4: from a fresh exchange, after every finite sequence of enableConfirms,
publish, ack and nack steps the list of unconfirmed tags is strictly increasing,
every tag in it is at least 1 and below `nextDeliveryTag`, and its length plus the
number of tags removed by acks is the number of publishes made with confirms
enabled. Such a sequence does run to its end when the maximal frame size is above 7
(given fuel for the payloads). -/
theorem confirm_state_invariant (name : String) (channelNumber frameMax : Int) (fuel : Nat)
    (steps : List ConfirmStep) :
    (∀ (d : QAmqpExchangePrivate) (l : Ledger),
      ConfirmStep.run fuel (init name channelNumber frameMax, { published := 0, resolved := 0 })
          steps = some (d, l) →
        d.unconfirmedDeliveryTags.Pairwise (fun a b => a < b)
        ∧ (∀ x ∈ d.unconfirmedDeliveryTags, 1 ≤ x ∧ x < d.nextDeliveryTag)
        ∧ d.unconfirmedDeliveryTags.length + l.resolved = l.published)
    ∧ (7 < frameMax → (∀ step ∈ steps, step.payloadSize ≤ fuel) →
        (ConfirmStep.run fuel
          (init name channelNumber frameMax, { published := 0, resolved := 0 })
          steps).isSome = true) := by
  constructor
  · intro d l h
    exact run_invariant fuel steps _ _ d l h List.Pairwise.nil
      (fun x hx => by cases hx) rfl
  · intro hF hfuel
    exact run_total fuel steps _ _ hF hfuel

/-- Witness of C4: confirms enabled, three publishes, an ack of tag 2 and a nack of
tag 3. -/
theorem confirm_state_invariant_witness :
    ∃ (d : QAmqpExchangePrivate) (l : Ledger),
      ConfirmStep.run 2 (init "logs" 1 4096, { published := 0, resolved := 0 })
          [ConfirmStep.enableConfirms false,
           ConfirmStep.publish [1, 2] "key" "text/plain" [] [] 0,
           ConfirmStep.publish [] "key" "text/plain" [] [] 0,
           ConfirmStep.publish [3] "key" "text/plain" [] [] 0,
           ConfirmStep.ack 2 false,
           ConfirmStep.nack 3 false] = some (d, l)
      ∧ d.unconfirmedDeliveryTags.Pairwise (fun a b => a < b)
      ∧ (∀ x ∈ d.unconfirmedDeliveryTags, 1 ≤ x ∧ x < d.nextDeliveryTag)
      ∧ d.unconfirmedDeliveryTags.length + l.resolved = l.published := by
  have h := confirm_state_invariant "logs" 1 4096 2
    [ConfirmStep.enableConfirms false,
     ConfirmStep.publish [1, 2] "key" "text/plain" [] [] 0,
     ConfirmStep.publish [] "key" "text/plain" [] [] 0,
     ConfirmStep.publish [3] "key" "text/plain" [] [] 0,
     ConfirmStep.ack 2 false,
     ConfirmStep.nack 3 false]
  obtain ⟨⟨d, l⟩, hr⟩ := Option.isSome_iff_exists.mp (h.2 (by decide) (by decide))
  exact ⟨d, l, hr, h.1 d l hr⟩

/-- C5: for a maximal frame size above 7, publish returns (given fuel for the
payload), and what it sends is the method frame, a content header whose body size
is the payload length, and then content-body frames whose bodies, concatenated in
sending order, are the payload and each hold at most `frameMax - 7` bytes. -/
theorem publish_fragments_roundtrip (fuel : Nat) (d : QAmqpExchangePrivate)
    (message : QByteArray) (routingKey mimeType : String) (headers : QAmqpTable)
    (properties : PropertyHash) (publishOptions : Int)
    (hF : 7 < d.frameMax) (hfuel : message.length ≤ fuel) :
    ∃ (d1 : QAmqpExchangePrivate) (header : ContentFrame) (bodies : List QByteArray),
      publish fuel d message routingKey mimeType headers properties publishOptions = some d1
      ∧ d1.log = d.log
          ++ [Effect.sendFrame (Frame.method (publishFrame d routingKey publishOptions)),
              Effect.sendFrame (Frame.content header)]
          ++ bodies.map (fun b =>
              Effect.sendFrame (Frame.body { channel := d.channelNumber, body := b }))
      ∧ header.bodySize = (message.length : Int)
      ∧ bodies.flatten = message
      ∧ (∀ b ∈ bodies, (b.length : Int) ≤ d.frameMax - 7) := by
  obtain ⟨d1, header, bodies, h1, h2, h3, h4, h5, _⟩ :=
    publish_spec fuel d message routingKey mimeType headers properties publishOptions hF hfuel
  exact ⟨d1, header, bodies, h1, h2, h3, h4, h5⟩

/-- Witness of C5: seven bytes published with a maximal frame size of 10 go out as
bodies of 3, 3 and 1 bytes. -/
theorem publish_fragments_roundtrip_witness :
    (∃ (d1 : QAmqpExchangePrivate) (header : ContentFrame) (bodies : List QByteArray),
      publish 7 (init "logs" 1 10) [1, 2, 3, 4, 5, 6, 7] "key" "text/plain" [] [] 0 = some d1
      ∧ d1.log = (init "logs" 1 10).log
          ++ [Effect.sendFrame (Frame.method (publishFrame (init "logs" 1 10) "key" 0)),
              Effect.sendFrame (Frame.content header)]
          ++ bodies.map (fun b =>
              Effect.sendFrame (Frame.body { channel := (init "logs" 1 10).channelNumber,
                                             body := b }))
      ∧ header.bodySize = (([1, 2, 3, 4, 5, 6, 7] : QByteArray).length : Int)
      ∧ bodies.flatten = [1, 2, 3, 4, 5, 6, 7]
      ∧ (∀ b ∈ bodies, (b.length : Int) ≤ (init "logs" 1 10).frameMax - 7))
    ∧ (publish 7 (init "logs" 1 10) [1, 2, 3, 4, 5, 6, 7] "key" "text/plain" [] [] 0).map
        (fun d1 => bodiesOf d1.log) = some [[1, 2, 3], [4, 5, 6], [7]] :=
  ⟨publish_fragments_roundtrip 7 (init "logs" 1 10) [1, 2, 3, 4, 5, 6, 7] "key" "text/plain"
    [] [] 0 (by decide) (by decide), by decide⟩

/-- C6 (amended): for a maximal frame size above 7, publish sends exactly
`ceil(S / (frameMax - 7))` content-body frames for a payload of `S` bytes; for the
empty payload that is no body frame at all. -/
theorem publish_body_frame_count (fuel : Nat) (d : QAmqpExchangePrivate)
    (message : QByteArray) (routingKey mimeType : String) (headers : QAmqpTable)
    (properties : PropertyHash) (publishOptions : Int)
    (hF : 7 < d.frameMax) (hfuel : message.length ≤ fuel) :
    ∃ (d1 : QAmqpExchangePrivate) (header : ContentFrame) (bodies : List QByteArray),
      publish fuel d message routingKey mimeType headers properties publishOptions = some d1
      ∧ d1.log = d.log
          ++ [Effect.sendFrame (Frame.method (publishFrame d routingKey publishOptions)),
              Effect.sendFrame (Frame.content header)]
          ++ bodies.map (fun b =>
              Effect.sendFrame (Frame.body { channel := d.channelNumber, body := b }))
      ∧ bodies.length = ⌈(message.length : ℚ) / ((d.frameMax - 7 : Int) : ℚ)⌉₊
      ∧ (message = [] → bodies = []) := by
  obtain ⟨d1, header, bodies, h1, h2, _, h4, _, h6⟩ :=
    publish_spec fuel d message routingKey mimeType headers properties publishOptions hF hfuel
  have hc : 0 < (d.frameMax - 7).toNat := by omega
  have hcast : ((d.frameMax - 7 : Int) : ℚ) = (((d.frameMax - 7).toNat : Nat) : ℚ) := by
    have hz : d.frameMax - 7 = (((d.frameMax - 7).toNat : Nat) : Int) := by omega
    exact_mod_cast congrArg (fun z : Int => (z : ℚ)) hz
  refine ⟨d1, header, bodies, h1, h2, ?_, ?_⟩
  · rw [h6, hcast, ceil_div_eq _ _ hc]
  · intro hm
    subst hm
    have : bodies.length = 0 := by
      rw [h6]; exact Nat.div_eq_of_lt (by simp; omega)
    exact List.length_eq_zero.mp this

/-- Witness of C6 (amended): seven bytes and a maximal frame size of 10 give
ceil(7/3) = 3 body frames. -/
theorem publish_body_frame_count_witness :
    (∃ (d1 : QAmqpExchangePrivate) (header : ContentFrame) (bodies : List QByteArray),
      publish 7 (init "logs" 1 10) [1, 2, 3, 4, 5, 6, 7] "key" "text/plain" [] [] 0 = some d1
      ∧ d1.log = (init "logs" 1 10).log
          ++ [Effect.sendFrame (Frame.method (publishFrame (init "logs" 1 10) "key" 0)),
              Effect.sendFrame (Frame.content header)]
          ++ bodies.map (fun b =>
              Effect.sendFrame (Frame.body { channel := (init "logs" 1 10).channelNumber,
                                             body := b }))
      ∧ bodies.length
          = ⌈((([1, 2, 3, 4, 5, 6, 7] : QByteArray).length : Nat) : ℚ)
              / (((init "logs" 1 10).frameMax - 7 : Int) : ℚ)⌉₊
      ∧ (([1, 2, 3, 4, 5, 6, 7] : QByteArray) = [] → bodies = []))
    ∧ (publish 7 (init "logs" 1 10) [1, 2, 3, 4, 5, 6, 7] "key" "text/plain" [] [] 0).map
        (fun d1 => (bodiesOf d1.log).length) = some 3 :=
  ⟨publish_body_frame_count 7 (init "logs" 1 10) [1, 2, 3, 4, 5, 6, 7] "key" "text/plain"
    [] [] 0 (by decide) (by decide), by decide⟩

/-- Counterexample to C6 as stated: an empty payload is published with no
content-body frame, not with one. -/
theorem publish_empty_payload_counterexample :
    (publish 0 (init "logs" 1 4096) [] "key" "text/plain" [] [] 0).map
        (fun d1 => (bodiesOf d1.log).length) = some 0
    ∧ (publish 0 (init "logs" 1 4096) [] "key" "text/plain" [] [] 0).map
        (fun d1 => (bodiesOf d1.log).length) ≠ some 1 := by
  decide

end QAmqpExchangePrivate

namespace QueuePrivate

/-! ## Reassembly of a delivery -/

theorem emissions_emit (d : QueuePrivate) (sig : Signal) :
    emissions sig (emit d sig).log = emissions sig d.log + 1 := by
  simp [emissions, emit, List.count_append]

theorem body_single (d : QueuePrivate) (m : Message) (f : QByteArray)
    (h : d.messages_ = [m]) :
    _q_body d { channel := d.number, body := f }
      = if m.leftSize - (f.length : Int) = 0 then
          emit { d with messages_ :=
                  [{ m with payload := m.payload ++ f,
                            leftSize := m.leftSize - (f.length : Int) }] }
            Signal.messageReceived
        else
          { d with messages_ :=
              [{ m with payload := m.payload ++ f,
                        leftSize := m.leftSize - (f.length : Int) }] } := by
  simp only [_q_body, h, updateLast, ne_eq, not_true_eq_false, if_false, List.isEmpty_cons,
    Bool.false_eq_true, List.getLast?_singleton, List.length_singleton, and_true]

theorem totalSize_cons (f : QByteArray) (rest : List QByteArray) :
    totalSize (f :: rest) = (f.length : Int) + totalSize rest := by
  unfold totalSize
  rw [List.flatten_cons, List.length_append]
  push_cast; rfl

theorem totalSize_nonneg (fragments : List QByteArray) : 0 ≤ totalSize fragments := by
  unfold totalSize
  exact Int.ofNat_nonneg _

theorem receiveBodies_single (fragments : List QByteArray) :
    ∀ (d : QueuePrivate) (m : Message), d.messages_ = [m] →
      (receiveBodies d fragments).messages_
        = [{ m with payload := m.payload ++ fragments.flatten,
                    leftSize := m.leftSize - totalSize fragments }]
      ∧ (receiveBodies d fragments).number = d.number := by
  induction fragments with
  | nil =>
    intro d m h
    simp [receiveBodies, totalSize, h]
  | cons f rest ih =>
    intro d m h
    have hstep : receiveBodies d (f :: rest)
        = receiveBodies (_q_body d { channel := d.number, body := f }) rest := rfl
    have harith : m.leftSize - (f.length : Int) - totalSize rest
        = m.leftSize - ((f.length : Int) + totalSize rest) := by omega
    rw [hstep, body_single d m f h, totalSize_cons, List.flatten_cons]
    split
    · obtain ⟨h1, h2⟩ := ih (emit { d with messages_ :=
          [{ m with payload := m.payload ++ f, leftSize := m.leftSize - (f.length : Int) }] }
          Signal.messageReceived) _ rfl
      rw [h1, h2]
      simp only [List.append_assoc, harith, emit, and_self]
    · obtain ⟨h1, h2⟩ := ih { d with messages_ :=
          [{ m with payload := m.payload ++ f, leftSize := m.leftSize - (f.length : Int) }] }
          _ rfl
      rw [h1, h2]
      simp only [List.append_assoc, harith, and_self]

theorem totalSize_pos (fragments : List QByteArray) (hne : fragments ≠ [])
    (hall : ∀ f ∈ fragments, f ≠ []) : 0 < totalSize fragments := by
  cases fragments with
  | nil => exact absurd rfl hne
  | cons f rest =>
    rw [totalSize_cons]
    have hf : f ≠ [] := hall f (List.mem_cons_self _ _)
    have : 0 < f.length := List.length_pos.mpr hf
    have := totalSize_nonneg rest
    omega

theorem receiveBodies_emissions (fragments : List QByteArray) :
    ∀ (d : QueuePrivate) (m : Message), d.messages_ = [m] →
      (∀ f ∈ fragments, f ≠ []) → totalSize fragments ≤ m.leftSize →
      emissions Signal.messageReceived (receiveBodies d fragments).log
        = emissions Signal.messageReceived d.log
          + (if fragments ≠ [] ∧ totalSize fragments = m.leftSize then 1 else 0) := by
  induction fragments with
  | nil =>
    intro d m _ _ _
    simp [receiveBodies]
  | cons f rest ih =>
    intro d m h hall hle
    have hstep : receiveBodies d (f :: rest)
        = receiveBodies (_q_body d { channel := d.number, body := f }) rest := rfl
    have hrest : ∀ g ∈ rest, g ≠ [] := fun g hg => hall g (List.mem_cons_of_mem _ hg)
    rw [totalSize_cons] at hle
    rw [hstep, body_single d m f h, totalSize_cons]
    by_cases hz : m.leftSize - (f.length : Int) = 0
    · have hr0 : rest = [] := by
        by_contra hne
        have := totalSize_pos rest hne hrest
        omega
      subst hr0
      simp only [hz, if_true, receiveBodies, List.foldl_nil]
      rw [emissions_emit]
      have : (f.length : Int) + totalSize [] = m.leftSize := by
        simp [totalSize]; omega
      simp [this]
    · simp only [hz, if_false]
      rw [ih { d with messages_ :=
          [{ m with payload := m.payload ++ f, leftSize := m.leftSize - (f.length : Int) }] }
          _ rfl hrest (by simp only; omega)]
      by_cases hr0 : rest = []
      · subst hr0
        have : ¬ ((f.length : Int) + totalSize [] = m.leftSize) := by
          simp [totalSize]; omega
        simp [this]
      · have e : (totalSize rest = m.leftSize - (f.length : Int))
            ↔ ((f.length : Int) + totalSize rest = m.leftSize) := by
          constructor <;> intro h <;> omega
        simp only [ne_eq, hr0, not_false_eq_true, true_and, e, reduceCtorEq]

theorem accepted_enqueues (leftSize0 : Int) (d : QueuePrivate) (viaGet : Bool)
    (deliveryTag : Int) (redelivered : Bool) (exchangeName routingKey : String) :
    (_q_method false leftSize0 d
        (acceptedFrame d viaGet deliveryTag redelivered exchangeName routingKey)).1
      = { d with messages_ := d.messages_ ++
            [{ Message.new leftSize0 with routeKey := routingKey, exchangeName := exchangeName,
                                          deliveryTag := deliveryTag }] } := by
  cases viaGet
  · simp [acceptedFrame, _q_method, deliverFrame, deliver, newMessage, readShortString,
      readLongLong, readBool, fcBasic, fcQueue, bmDeliver, bmConsumeOk]
  · simp [acceptedFrame, _q_method, getOkFrame, getOk, newMessage, readShortString,
      readLongLong, readBool, fcBasic, fcQueue, bmGetOk, bmDeliver, bmConsumeOk]

/-- C7 (amended): from an empty queue of pending messages, an accepted Deliver or
GetOk frame, a header announcing the total size of the fragments and then the body
frames leave one pending message whose payload is the concatenation of the fragments
in receipt order and whose `leftSize` is 0, for every split; when there is at least
one fragment and no fragment is empty, `messageReceived` is emitted exactly once. -/
theorem single_delivery_reassembly (leftSize0 : Int) (d : QueuePrivate) (viaGet : Bool)
    (deliveryTag : Int) (redelivered : Bool) (exchangeName routingKey : String)
    (properties : PropertyHash) (fragments : List QByteArray) (hempty : d.messages_ = []) :
    (∃ m : Message,
      (receiveDelivery leftSize0 d
        (acceptedFrame d viaGet deliveryTag redelivered exchangeName routingKey)
        (totalSize fragments) properties fragments).messages_ = [m]
      ∧ m.payload = fragments.flatten ∧ m.leftSize = 0)
    ∧ (fragments ≠ [] → (∀ f ∈ fragments, f ≠ []) →
        emissions Signal.messageReceived
          (receiveDelivery leftSize0 d
            (acceptedFrame d viaGet deliveryTag redelivered exchangeName routingKey)
            (totalSize fragments) properties fragments).log
        = emissions Signal.messageReceived d.log + 1) := by
  unfold receiveDelivery
  simp only [accepted_enqueues, hempty, List.nil_append]
  have hcontent : ∀ m0 : Message,
      _q_content { d with messages_ := [m0] }
          { channel := d.number, methodClass := fcBasic, bodySize := totalSize fragments,
            properties := properties }
        = { d with messages_ :=
              [{ m0 with leftSize := totalSize fragments,
                         property := properties.foldl (fun h kv => setProperty h kv.1 kv.2)
                                       m0.property }] } := by
    intro m0
    simp [_q_content, updateLast]
  rw [hcontent]
  constructor
  · obtain ⟨h1, _⟩ := receiveBodies_single fragments
      { d with messages_ :=
          [{ routeKey := routingKey, exchangeName := exchangeName, deliveryTag := deliveryTag,
             property := properties.foldl (fun h kv => setProperty h kv.1 kv.2)
                           (Message.new leftSize0).property,
             payload := (Message.new leftSize0).payload,
             leftSize := totalSize fragments }] } _ rfl
    refine ⟨_, h1, ?_, ?_⟩
    · simp [Message.new]
    · simp
  · intro hne hall
    have h2 := receiveBodies_emissions fragments
      { d with messages_ :=
          [{ routeKey := routingKey, exchangeName := exchangeName, deliveryTag := deliveryTag,
             property := properties.foldl (fun h kv => setProperty h kv.1 kv.2)
                           (Message.new leftSize0).property,
             payload := (Message.new leftSize0).payload,
             leftSize := totalSize fragments }] } _ rfl hall (le_refl _)
    rw [h2]
    simp [hne]

/-- Witness of C7 (amended): three bytes delivered as fragments of 2 and 1 bytes. -/
theorem single_delivery_reassembly_witness :
    (∃ m : Message,
      (receiveDelivery 0 (init "q1" 1)
        (acceptedFrame (init "q1" 1) false 5 false "logs" "key")
        (totalSize [[1, 2], [3]]) [] [[1, 2], [3]]).messages_ = [m]
      ∧ m.payload = ([[1, 2], [3]] : List QByteArray).flatten ∧ m.leftSize = 0)
    ∧ emissions Signal.messageReceived
          (receiveDelivery 0 (init "q1" 1)
            (acceptedFrame (init "q1" 1) false 5 false "logs" "key")
            (totalSize [[1, 2], [3]]) [] [[1, 2], [3]]).log
        = emissions Signal.messageReceived (init "q1" 1).log + 1 :=
  ⟨(single_delivery_reassembly 0 (init "q1" 1) false 5 false "logs" "key" []
      [[1, 2], [3]] rfl).1,
   (single_delivery_reassembly 0 (init "q1" 1) false 5 false "logs" "key" []
      [[1, 2], [3]] rfl).2 (by decide) (by decide)⟩

/-- Counterexample to C7 as stated: a delivery of size 0 with no body frame emits
`messageReceived` zero times, and a delivery of two bytes whose split ends with an
empty fragment emits it twice. -/
theorem single_delivery_notification_counterexample :
    emissions Signal.messageReceived
        (receiveDelivery 0 (init "q1" 1)
          (acceptedFrame (init "q1" 1) false 5 false "logs" "key")
          (totalSize []) [] []).log = 0
    ∧ totalSize [[1, 2], []] = 2
    ∧ emissions Signal.messageReceived
        (receiveDelivery 0 (init "q1" 1)
          (acceptedFrame (init "q1" 1) false 5 false "logs" "key")
          (totalSize [[1, 2], []]) [] [[1, 2], []]).log = 2 := by
  decide

/-! ## Stale deliveries -/

/-- C8: a Deliver frame whose consumer tag is not the queue's `consumerTag` leaves
the queue exactly as it was, pending messages and effect log included, so nothing
is enqueued and nothing is emitted. -/
theorem deliver_stale_consumer_tag (leftSize0 : Int) (d : QueuePrivate) (frame : MethodFrame)
    (hclass : frame.methodClass = fcBasic) (hid : frame.id = bmDeliver)
    (hstale : (readShortString frame.arguments).1 ≠ d.consumerTag) :
    deliver leftSize0 d frame = d
    ∧ _q_method false leftSize0 d frame = (d, true) := by
  have h1 : deliver leftSize0 d frame = d := by
    simp [deliver, hstale]
  refine ⟨h1, ?_⟩
  simp [_q_method, hclass, hid, h1, fcBasic, fcQueue, bmDeliver, bmConsumeOk]

/-- Witness of C8: a queue subscribed as "ctag-1" gets a Deliver for "ctag-0". -/
theorem deliver_stale_consumer_tag_witness :
    deliver 0 { init "q1" 1 with consumerTag := "ctag-1" }
        (deliverFrame (init "q1" 1) "ctag-0" 7 false "logs" "key")
      = { init "q1" 1 with consumerTag := "ctag-1" }
    ∧ _q_method false 0 { init "q1" 1 with consumerTag := "ctag-1" }
        (deliverFrame (init "q1" 1) "ctag-0" 7 false "logs" "key")
      = ({ init "q1" 1 with consumerTag := "ctag-1" }, true) :=
  deliver_stale_consumer_tag 0 { init "q1" 1 with consumerTag := "ctag-1" }
    (deliverFrame (init "q1" 1) "ctag-0" 7 false "logs" "key") rfl rfl (by decide)

/-! ## Deferred declare and bindings -/

theorem apply_closed (d : QueuePrivate) (c : QueueCall) (hclosed : d.opened = false) :
    (c.apply d).opened = false
    ∧ (c.apply d).log = d.log
    ∧ (c.apply d).number = d.number
    ∧ (c.apply d).delayedBindings = d.delayedBindings ++ QueueCall.bindings [c]
    ∧ (c.apply d).delayedDeclare = (d.delayedDeclare || c.isDeclare) := by
  cases c with
  | declare =>
    simp [QueueCall.apply, declareDefault, declareNamed, declare, hclosed, QueueCall.bindings,
      QueueCall.isDeclare]
  | declareNamed name options =>
    simp [QueueCall.apply, declareNamed, declare, hclosed, QueueCall.bindings,
      QueueCall.isDeclare]
  | bind exchangeName key =>
    simp [QueueCall.apply, bind, hclosed, QueueCall.bindings, QueueCall.isDeclare]

theorem bindings_cons (c : QueueCall) (rest : List QueueCall) :
    QueueCall.bindings (c :: rest) = QueueCall.bindings [c] ++ QueueCall.bindings rest := by
  cases c <;> simp [QueueCall.bindings]

theorem run_closed (calls : List QueueCall) :
    ∀ d : QueuePrivate, d.opened = false →
      (QueueCall.run d calls).opened = false
      ∧ (QueueCall.run d calls).log = d.log
      ∧ (QueueCall.run d calls).number = d.number
      ∧ (QueueCall.run d calls).delayedBindings
          = d.delayedBindings ++ QueueCall.bindings calls
      ∧ (QueueCall.run d calls).delayedDeclare
          = (d.delayedDeclare || calls.any QueueCall.isDeclare) := by
  induction calls with
  | nil => intro d h; simp [QueueCall.run, QueueCall.bindings, h]
  | cons c rest ih =>
    intro d h
    obtain ⟨a1, a2, a3, a4, a5⟩ := apply_closed d c h
    obtain ⟨b1, b2, b3, b4, b5⟩ := ih (c.apply d) a1
    have hrun : QueueCall.run d (c :: rest) = QueueCall.run (c.apply d) rest := rfl
    rw [hrun, b2, b3, b4, b5, a2, a3, a4, a5, bindings_cons c rest]
    refine ⟨b1, rfl, rfl, by rw [List.append_assoc], ?_⟩
    simp [List.any_cons, Bool.or_assoc]

theorem fold_bind_open (bs : List (String × String)) :
    ∀ s : QueuePrivate, s.opened = true →
      bs.foldl (fun s binding => bind s binding.1 binding.2) s
        = { s with log := s.log ++ bs.map (fun b =>
              Effect.sendFrame (Frame.method (bindFrame s b.1 b.2))) } := by
  induction bs with
  | nil => intro s _; simp
  | cons b rest ih =>
    intro s h
    have hb : bind s b.1 b.2 = sendFrame s (Frame.method (bindFrame s b.1 b.2)) := by
      simp [bind, h]
    rw [List.foldl_cons, hb, ih _ (by simpa [sendFrame] using h)]
    simp [sendFrame, bindFrame, List.append_assoc]

theorem onOpen_delayed (s : QueuePrivate) (ho : s.opened = true)
    (hd : s.delayedDeclare = true) :
    (onOpen s).log
        = s.log ++ Effect.sendFrame (Frame.method (declareFrame s))
            :: s.delayedBindings.map (fun b =>
                Effect.sendFrame (Frame.method (bindFrame s b.1 b.2)))
    ∧ (onOpen s).delayedDeclare = false
    ∧ (onOpen s).delayedBindings = [] := by
  have hdec : declare s
      = { s with delayedDeclare := false,
                 log := s.log ++ [Effect.sendFrame (Frame.method (declareFrame s))] } := by
    simp [declare, ho, sendFrame]
  unfold onOpen
  simp only [hd, if_true]
  rw [hdec]
  by_cases hb : s.delayedBindings = []
  · simp [hb]
  · have hne : ¬ (s.delayedBindings.isEmpty = true) := by
      simpa [List.isEmpty_iff] using hb
    have hfold := fold_bind_open s.delayedBindings
      { s with delayedDeclare := false,
               log := s.log ++ [Effect.sendFrame (Frame.method (declareFrame s))] } ho
    simp only [hne, not_false_eq_true, if_true, hfold]
    simp [bindFrame, List.append_assoc]

/-- C9: calls of declare (at least one) and bind made while the channel is not open
send nothing, whatever their number and order; when the channel then reports open,
what is sent is one Queue.Declare frame followed by one Queue.Bind frame per bind
call, in call order, and afterwards `delayedDeclare` is false and `delayedBindings`
is empty. -/
theorem deferred_declare_and_bindings (d : QueuePrivate) (calls : List QueueCall)
    (hclosed : d.opened = false) (hnone : d.delayedBindings = [])
    (hdecl : calls.any QueueCall.isDeclare = true) :
    (∀ n : Nat, (QueueCall.run d (calls.take n)).log = d.log)
    ∧ (QueueCall.channelOpens (QueueCall.run d calls)).log
        = d.log
          ++ Effect.sendFrame (Frame.method (declareFrame (QueueCall.run d calls)))
            :: (QueueCall.bindings calls).map (fun b =>
                Effect.sendFrame (Frame.method (bindFrame (QueueCall.run d calls) b.1 b.2)))
    ∧ (QueueCall.channelOpens (QueueCall.run d calls)).delayedDeclare = false
    ∧ (QueueCall.channelOpens (QueueCall.run d calls)).delayedBindings = [] := by
  refine ⟨fun n => (run_closed (calls.take n) d hclosed).2.1, ?_⟩
  obtain ⟨_, h2, _, h4, h5⟩ := run_closed calls d hclosed
  rw [hnone, List.nil_append] at h4
  rw [hdecl, Bool.or_true] at h5
  obtain ⟨k1, k2, k3⟩ :=
    onOpen_delayed { QueueCall.run d calls with opened := true } rfl h5
  refine ⟨?_, k2, k3⟩
  unfold QueueCall.channelOpens
  rw [k1]
  simp only [h2, h4]
  rfl

/-- Witness of C9: a bind, two declares and another bind on a closed channel. -/
theorem deferred_declare_and_bindings_witness :
    (∀ n : Nat, (QueueCall.run (init "q1" 1)
        ([QueueCall.bind "logs" "a", QueueCall.declare, QueueCall.declareNamed "q2" 2,
          QueueCall.bind "amq.topic" "b"].take n)).log = (init "q1" 1).log)
    ∧ (QueueCall.channelOpens (QueueCall.run (init "q1" 1)
        [QueueCall.bind "logs" "a", QueueCall.declare, QueueCall.declareNamed "q2" 2,
         QueueCall.bind "amq.topic" "b"])).log
      = (init "q1" 1).log
          ++ Effect.sendFrame (Frame.method (declareFrame (QueueCall.run (init "q1" 1)
              [QueueCall.bind "logs" "a", QueueCall.declare, QueueCall.declareNamed "q2" 2,
               QueueCall.bind "amq.topic" "b"])))
            :: (QueueCall.bindings
                [QueueCall.bind "logs" "a", QueueCall.declare, QueueCall.declareNamed "q2" 2,
                 QueueCall.bind "amq.topic" "b"]).map (fun b =>
                Effect.sendFrame (Frame.method (bindFrame (QueueCall.run (init "q1" 1)
                  [QueueCall.bind "logs" "a", QueueCall.declare,
                   QueueCall.declareNamed "q2" 2, QueueCall.bind "amq.topic" "b"]) b.1 b.2)))
    ∧ (QueueCall.channelOpens (QueueCall.run (init "q1" 1)
        [QueueCall.bind "logs" "a", QueueCall.declare, QueueCall.declareNamed "q2" 2,
         QueueCall.bind "amq.topic" "b"])).delayedDeclare = false
    ∧ (QueueCall.channelOpens (QueueCall.run (init "q1" 1)
        [QueueCall.bind "logs" "a", QueueCall.declare, QueueCall.declareNamed "q2" 2,
         QueueCall.bind "amq.topic" "b"])).delayedBindings = [] :=
  deferred_declare_and_bindings (init "q1" 1)
    [QueueCall.bind "logs" "a", QueueCall.declare, QueueCall.declareNamed "q2" 2,
     QueueCall.bind "amq.topic" "b"] rfl rfl (by decide)

end QueuePrivate

namespace QAmqpExchangePrivate

/-! ## Declaring an exchange -/

/-- C10 (what the code does): on an open channel `declare()` takes the branch
guarded by `channelState != ChannelClosedState`: it sends no frame, asks the
channel to reopen, sets `delayedDeclare` and `needOpen`, and leaves the exchange
state as it was, for every exchange and so for a named, undeclared one. -/
theorem declare_on_open_channel_is_delayed (d : QAmqpExchangePrivate) :
    declare { d with channelState := ChannelState.ChannelOpenState }
      = { d with channelState := ChannelState.ChannelOpenState, delayedDeclare := true,
                 delayedRemove := false, needOpen := true,
                 log := d.log ++ [Effect.reopen] }
    ∧ (declare { init "logs" 1 4096 with
          channelState := ChannelState.ChannelOpenState,
          exchangeState := ExchangeState.ExchangeUndeclaredState }).log = [Effect.reopen]
    ∧ (declare { init "logs" 1 4096 with
          channelState := ChannelState.ChannelOpenState,
          exchangeState := ExchangeState.ExchangeUndeclaredState }).exchangeState
        = ExchangeState.ExchangeUndeclaredState
    ∧ (declare { init "logs" 1 4096 with
          channelState := ChannelState.ChannelOpenState,
          exchangeState := ExchangeState.ExchangeUndeclaredState }).delayedDeclare = true := by
  refine ⟨?_, by decide, by decide, by decide⟩
  simp [declare, reopen]

theorem framesOf_append (l1 l2 : List Effect) :
    framesOf (l1 ++ l2) = framesOf l1 ++ framesOf l2 := by
  induction l1 with
  | nil => rfl
  | cons e rest ih =>
    cases e with
    | sendFrame f => simp [framesOf, ih]
    | emit sg => simpa [framesOf] using ih
    | reopen => simpa [framesOf] using ih

/-- C11 (amended): `declare()` on an exchange with an empty name sends no frame and
leaves the exchange state as it was, in every state; when the call is not deferred
(no reopen is requested, and the exchange state is Undeclared, Declared or
Declaring) it leaves the whole exchange, `delayedDeclare` and `delayedRemove`
included, exactly as it was. -/
theorem declare_empty_name (d : QAmqpExchangePrivate) (hname : d.name.isEmpty = true) :
    framesOf (declare d).log = framesOf d.log
    ∧ (declare d).exchangeState = d.exchangeState
    ∧ ((declare d).log = d.log →
        (d.exchangeState = ExchangeState.ExchangeUndeclaredState
          ∨ d.exchangeState = ExchangeState.ExchangeDeclaredState
          ∨ d.exchangeState = ExchangeState.ExchangeDeclaringState) →
        declare d = d) := by
  by_cases hch : d.channelState = ChannelState.ChannelClosedState
  · refine ⟨?_, ?_, ?_⟩
    · unfold declare declareSend
      simp only [hch, ne_eq, not_true_eq_false, if_false, hname, if_true]
      split
      · rfl
      · split
        · split <;> rfl
        · rfl
    · unfold declare declareSend
      simp only [hch, ne_eq, not_true_eq_false, if_false, hname, if_true]
      split
      · rfl
      · split
        · split <;> rfl
        · rfl
    · intro _ hst
      unfold declare declareSend
      simp only [hch, ne_eq, not_true_eq_false, if_false, hname, if_true]
      rcases hst with h | h | h <;> simp [h]
  · refine ⟨?_, ?_, ?_⟩
    · simp [declare, hch, reopen, framesOf_append, framesOf]
    · simp [declare, hch, reopen]
    · intro hlog _
      exfalso
      have hl : (declare d).log = d.log ++ [Effect.reopen] := by
        simp [declare, hch, reopen]
      rw [hl] at hlog
      have := congrArg List.length hlog
      simp at this

/-- Witness of C11 (amended): an unnamed exchange in state Undeclared whose call
passes the channel check. -/
theorem declare_empty_name_witness :
    framesOf (declare { init "" 1 4096 with
        exchangeState := ExchangeState.ExchangeUndeclaredState, delayedRemove := true }).log
      = framesOf ({ init "" 1 4096 with
        exchangeState := ExchangeState.ExchangeUndeclaredState, delayedRemove := true }).log
    ∧ (declare { init "" 1 4096 with
        exchangeState := ExchangeState.ExchangeUndeclaredState,
        delayedRemove := true }).exchangeState
      = ExchangeState.ExchangeUndeclaredState
    ∧ declare { init "" 1 4096 with
        exchangeState := ExchangeState.ExchangeUndeclaredState, delayedRemove := true }
      = { init "" 1 4096 with
        exchangeState := ExchangeState.ExchangeUndeclaredState, delayedRemove := true } :=
  ⟨(declare_empty_name { init "" 1 4096 with
      exchangeState := ExchangeState.ExchangeUndeclaredState, delayedRemove := true } rfl).1,
   (declare_empty_name { init "" 1 4096 with
      exchangeState := ExchangeState.ExchangeUndeclaredState, delayedRemove := true } rfl).2.1,
   (declare_empty_name { init "" 1 4096 with
      exchangeState := ExchangeState.ExchangeUndeclaredState, delayedRemove := true } rfl).2.2
      (by decide) (by decide)⟩

/-- Counterexample to C11 as stated: on a freshly constructed unnamed exchange
(channel closed, exchange state Closed, no delayed flag) `declare()` sets
`delayedDeclare`: the state check comes before the name check. -/
theorem declare_empty_name_counterexample :
    (init "" 1 4096).name.isEmpty = true
    ∧ (init "" 1 4096).delayedDeclare = false
    ∧ (declare (init "" 1 4096)).delayedDeclare = true := by
  decide

/-! ## The channel-opened notification -/

/-- C12 (amended): for an exchange whose name is empty or starts with "amq." and
whose `delayedDeclare` is false, whatever `delayedRemove`, the channel-opened
notification leaves the exchange Declared, emits `declared` and sends nothing; in
every other case (another name, or a declare pending) the state becomes Undeclared
and the deferred remove or declare, if any, is replayed from there. -/
theorem channelOpened_builtin_name (d : QAmqpExchangePrivate) :
    (builtinName d = true → d.delayedDeclare = false →
      (channelOpened d).exchangeState = ExchangeState.ExchangeDeclaredState
      ∧ isDeclared (channelOpened d) = true
      ∧ (channelOpened d).log = d.log ++ [Effect.emit Signal.declared])
    ∧ ((builtinName d = false ∨ d.delayedDeclare = true) →
      channelOpened d
        = if d.delayedRemove = true then
            remove (newState d ExchangeState.ExchangeUndeclaredState) d.removeOptions
          else if d.delayedDeclare = true then
            declare (newState d ExchangeState.ExchangeUndeclaredState)
          else newState d ExchangeState.ExchangeUndeclaredState) := by
  constructor
  · intro hb hd
    simp [channelOpened, hb, hd, newState, emit, isDeclared]
  · intro h
    have hcond : ¬ ((!d.delayedDeclare && builtinName d) = true) := by
      rcases h with h | h <;> simp [h]
    unfold channelOpened
    rw [if_neg hcond]
    rfl

/-- Witness of C12 (amended): "amq.topic" with a remove pending, and "logs" with
nothing pending. -/
theorem channelOpened_builtin_name_witness :
    ((channelOpened { init "amq.topic" 1 4096 with
        channelState := ChannelState.ChannelOpenState, delayedRemove := true }).exchangeState
        = ExchangeState.ExchangeDeclaredState
      ∧ isDeclared (channelOpened { init "amq.topic" 1 4096 with
        channelState := ChannelState.ChannelOpenState, delayedRemove := true }) = true
      ∧ (channelOpened { init "amq.topic" 1 4096 with
        channelState := ChannelState.ChannelOpenState, delayedRemove := true }).log
        = ({ init "amq.topic" 1 4096 with
        channelState := ChannelState.ChannelOpenState, delayedRemove := true }).log
          ++ [Effect.emit Signal.declared])
    ∧ (channelOpened { init "logs" 1 4096 with
        channelState := ChannelState.ChannelOpenState }).exchangeState
        = ExchangeState.ExchangeUndeclaredState :=
  ⟨(channelOpened_builtin_name { init "amq.topic" 1 4096 with
      channelState := ChannelState.ChannelOpenState, delayedRemove := true }).1
      (by decide) (by decide),
   by
    rw [(channelOpened_builtin_name { init "logs" 1 4096 with
      channelState := ChannelState.ChannelOpenState }).2 (Or.inl (by decide))]
    decide⟩

/-- Counterexample to C12 as stated: "amq.topic" with a declare pending is not left
Declared by the channel-opened notification, and `declared` is not emitted. -/
theorem channelOpened_builtin_name_counterexample :
    builtinName { init "amq.topic" 1 4096 with
        channelState := ChannelState.ChannelOpenState, delayedDeclare := true } = true
    ∧ (channelOpened { init "amq.topic" 1 4096 with
        channelState := ChannelState.ChannelOpenState, delayedDeclare := true }).exchangeState
        = ExchangeState.ExchangeUndeclaredState
    ∧ isDeclared (channelOpened { init "amq.topic" 1 4096 with
        channelState := ChannelState.ChannelOpenState, delayedDeclare := true }) = false
    ∧ emissions Signal.declared (channelOpened { init "amq.topic" 1 4096 with
        channelState := ChannelState.ChannelOpenState, delayedDeclare := true }).log = 0 := by
  decide

/-! ## Delivery tags -/

/-- C13: a publish on an exchange with `nextDeliveryTag = n > 0` appends `n` to the
unconfirmed tags and sets the counter to `n + 1`; with `nextDeliveryTag = 0` it
leaves both as they were; the first publish after `enableConfirms` on a fresh
exchange leaves the list `[1]`. The publish does return when the maximal frame
size is above 7 (given fuel for the payload). -/
theorem publish_assigns_delivery_tag (fuel : Nat) (d : QAmqpExchangePrivate)
    (message : QByteArray) (routingKey mimeType : String) (headers : QAmqpTable)
    (properties : PropertyHash) (publishOptions : Int) :
    (∀ d1 : QAmqpExchangePrivate,
      publish fuel d message routingKey mimeType headers properties publishOptions = some d1 →
        (0 < d.nextDeliveryTag →
          d1.unconfirmedDeliveryTags = d.unconfirmedDeliveryTags ++ [d.nextDeliveryTag]
          ∧ d1.nextDeliveryTag = d.nextDeliveryTag + 1)
        ∧ (d.nextDeliveryTag = 0 →
          d1.unconfirmedDeliveryTags = d.unconfirmedDeliveryTags
          ∧ d1.nextDeliveryTag = d.nextDeliveryTag))
    ∧ (7 < d.frameMax → message.length ≤ fuel →
        (publish fuel d message routingKey mimeType headers properties
          publishOptions).isSome = true)
    ∧ (∀ (name : String) (channelNumber frameMax : Int) (noWait : Bool)
        (d1 : QAmqpExchangePrivate),
        publish fuel (enableConfirms (init name channelNumber frameMax) noWait) message
            routingKey mimeType headers properties publishOptions = some d1 →
          d1.unconfirmedDeliveryTags = [1] ∧ d1.nextDeliveryTag = 2) := by
  refine ⟨?_, ?_, ?_⟩
  · intro d1 h
    have hp := publish_tags fuel d d1 message routingKey mimeType headers properties
      publishOptions h
    exact ⟨hp.1, fun h0 => hp.2 (by omega)⟩
  · intro hF hfuel
    obtain ⟨d1, _, _, h, _⟩ :=
      publish_spec fuel d message routingKey mimeType headers properties publishOptions
        hF hfuel
    rw [h]; rfl
  · intro name channelNumber frameMax noWait d1 h
    have hp := publish_tags fuel _ d1 message routingKey mimeType headers properties
      publishOptions h
    have hn : (enableConfirms (init name channelNumber frameMax) noWait).nextDeliveryTag = 1 := by
      simp [enableConfirms, init, sendFrame]
    have hl : (enableConfirms (init name channelNumber frameMax) noWait).unconfirmedDeliveryTags
        = [] := by
      simp [enableConfirms, init, sendFrame]
    have := hp.1 (by rw [hn]; decide)
    rw [hn, hl] at this
    simpa using this

/-- Witness of C13: tags 1 and 2 pending and the counter at 3; a publish of two
bytes returns and leaves tags 1, 2, 3 and the counter at 4. -/
theorem publish_assigns_delivery_tag_witness :
    ∃ d1 : QAmqpExchangePrivate,
      publish 2 { init "logs" 1 4096 with nextDeliveryTag := 3,
                                          unconfirmedDeliveryTags := [1, 2] }
        [7, 8] "key" "text/plain" [] [] 0 = some d1
      ∧ d1.unconfirmedDeliveryTags = [1, 2] ++ [3]
      ∧ d1.nextDeliveryTag = 3 + 1 := by
  have h := publish_assigns_delivery_tag 2
    { init "logs" 1 4096 with nextDeliveryTag := 3, unconfirmedDeliveryTags := [1, 2] }
    [7, 8] "key" "text/plain" [] [] 0
  obtain ⟨d1, hr⟩ := Option.isSome_iff_exists.mp (h.2.1 (by decide) (by decide))
  exact ⟨d1, hr, (h.1 d1 hr).1 (by decide)⟩

/-! ## The all-delivered notification -/

theorem handleAck_of_mem (d : QAmqpExchangePrivate) (t : Int) (multiple : Bool)
    (ht : t ≠ 0) (hmem : t ∈ d.unconfirmedDeliveryTags) :
    emissions Signal.allMessagesDelivered (handleAckOrNack d (ackFrame d bmAck t multiple)).log
      = emissions Signal.allMessagesDelivered d.log
        + (if (handleAckOrNack d (ackFrame d bmAck t multiple)).unconfirmedDeliveryTags = []
            then 1 else 0) := by
  have h : indexOf d.unconfirmedDeliveryTags t ≠ -1 :=
    fun h => (indexOf_eq_neg_one_iff _ t).mp h hmem
  cases multiple
  · simp only [handleAckOrNack, ackFrame, readLongLong, readBool, ht, h, if_true, if_false,
      Bool.false_eq_true]
    by_cases he : removeAt d.unconfirmedDeliveryTags (indexOf d.unconfirmedDeliveryTags t).toNat
        = []
    · simp [he, emit, emissions, List.count_append]
    · simp [he, List.isEmpty_iff]
  · simp only [handleAckOrNack, ackFrame, readLongLong, readBool, ht, h, if_true, if_false]
    by_cases he : removeRange d.unconfirmedDeliveryTags 0
        (indexOf d.unconfirmedDeliveryTags t + 1).toNat = []
    · simp [he, emit, emissions, List.count_append]
    · simp [he, List.isEmpty_iff]

/-- C14 (amended): `allMessagesDelivered` is emitted by an ack exactly when the ack
is not ignored (its tag is 0 or is in the list) and the list is empty after it,
and then once. For a non-zero tag that is exactly when the ack makes a non-empty
list empty; with `L = [t]`, `ack(t, multiple=false)` empties the list and fires
once; an ack that leaves the list non-empty, or whose non-zero tag is not in the
list, fires nothing. -/
theorem ack_all_delivered_notification (d : QAmqpExchangePrivate) (t : Int)
    (multiple : Bool) :
    emissions Signal.allMessagesDelivered (handleAckOrNack d (ackFrame d bmAck t multiple)).log
      = emissions Signal.allMessagesDelivered d.log
        + (if (t = 0 ∨ t ∈ d.unconfirmedDeliveryTags)
              ∧ (handleAckOrNack d (ackFrame d bmAck t multiple)).unconfirmedDeliveryTags = []
            then 1 else 0)
    ∧ (t ≠ 0 → d.unconfirmedDeliveryTags = [t] →
        (handleAckOrNack d (ackFrame d bmAck t false)).unconfirmedDeliveryTags = []
        ∧ emissions Signal.allMessagesDelivered
            (handleAckOrNack d (ackFrame d bmAck t false)).log
          = emissions Signal.allMessagesDelivered d.log + 1) := by
  constructor
  · by_cases h0 : t = 0
    · subst h0
      simp [handleAckOrNack, ackFrame, readLongLong, readBool, emit, emissions,
        List.count_append]
    · by_cases hmem : t ∈ d.unconfirmedDeliveryTags
      · rw [handleAck_of_mem d t multiple h0 hmem]
        simp [hmem]
      · rw [handleAck_of_not_mem d t multiple h0 hmem]
        simp [h0, hmem]
  · intro h0 hL
    have hmem : t ∈ d.unconfirmedDeliveryTags := by rw [hL]; exact List.mem_singleton_self t
    have hres : (handleAckOrNack d (ackFrame d bmAck t false)).unconfirmedDeliveryTags = [] := by
      rw [handleAck_single_of_mem d t h0 hmem, hL]
      simp [indexOf]
    refine ⟨hres, ?_⟩
    rw [handleAck_of_mem d t false h0 hmem, hres]
    simp

/-- Witness of C14 (amended): tag 5 alone pending, acked with multiple=false. -/
theorem ack_all_delivered_notification_witness :
    (handleAckOrNack { init "logs" 1 4096 with nextDeliveryTag := 6,
                                               unconfirmedDeliveryTags := [5] }
        (ackFrame (init "logs" 1 4096) bmAck 5 false)).unconfirmedDeliveryTags = []
    ∧ emissions Signal.allMessagesDelivered
        (handleAckOrNack { init "logs" 1 4096 with nextDeliveryTag := 6,
                                                   unconfirmedDeliveryTags := [5] }
          (ackFrame (init "logs" 1 4096) bmAck 5 false)).log
      = emissions Signal.allMessagesDelivered
          ({ init "logs" 1 4096 with nextDeliveryTag := 6,
                                     unconfirmedDeliveryTags := [5] }).log + 1 :=
  (ack_all_delivered_notification
    { init "logs" 1 4096 with nextDeliveryTag := 6, unconfirmedDeliveryTags := [5] }
    5 false).2 (by decide) rfl

/-- Counterexample to C14 as stated: with nothing pending, an ack of tag 0 resolves
nothing and does not make the list become empty, yet `allMessagesDelivered` is
emitted. -/
theorem ack_zero_on_empty_list_counterexample :
    (init "logs" 1 4096).unconfirmedDeliveryTags = []
    ∧ (handleAckOrNack (init "logs" 1 4096)
        (ackFrame (init "logs" 1 4096) bmAck 0 false)).unconfirmedDeliveryTags = []
    ∧ emissions Signal.allMessagesDelivered (init "logs" 1 4096).log = 0
    ∧ emissions Signal.allMessagesDelivered
        (handleAckOrNack (init "logs" 1 4096)
          (ackFrame (init "logs" 1 4096) bmAck 0 false)).log = 1 := by
  decide

/-! ## Enabling confirms, and nacks -/

/-- C15: after `enableConfirms` the counter is 1 if it was 0 and is its previous
value otherwise, and the unconfirmed tags are unchanged; a second `enableConfirms`
right after the first leaves the same counter and the same list as the first. -/
theorem enableConfirms_idempotent (d : QAmqpExchangePrivate) (noWait noWait1 : Bool) :
    (enableConfirms d noWait).nextDeliveryTag
      = (if d.nextDeliveryTag = 0 then 1 else d.nextDeliveryTag)
    ∧ (enableConfirms d noWait).unconfirmedDeliveryTags = d.unconfirmedDeliveryTags
    ∧ (enableConfirms (enableConfirms d noWait) noWait1).nextDeliveryTag
      = (enableConfirms d noWait).nextDeliveryTag
    ∧ (enableConfirms (enableConfirms d noWait) noWait1).unconfirmedDeliveryTags
      = (enableConfirms d noWait).unconfirmedDeliveryTags := by
  have h1 : ∀ (e : QAmqpExchangePrivate) (nw : Bool),
      (enableConfirms e nw).nextDeliveryTag
        = (if e.nextDeliveryTag = 0 then 1 else e.nextDeliveryTag) := by
    intro e nw
    unfold enableConfirms
    simp only [sendFrame]
    split <;> rfl
  have h2 : ∀ (e : QAmqpExchangePrivate) (nw : Bool),
      (enableConfirms e nw).unconfirmedDeliveryTags = e.unconfirmedDeliveryTags := by
    intro e nw
    unfold enableConfirms
    simp only [sendFrame]
    split <;> rfl
  refine ⟨h1 d noWait, h2 d noWait, ?_, h2 _ noWait1⟩
  rw [h1 (enableConfirms d noWait) noWait1, h1 d noWait]
  by_cases h0 : d.nextDeliveryTag = 0
  · simp [h0]
  · simp [h0]

/-- C16: a nack, for any delivery tag (0 and pending tags included) and either value
of the multiple flag, leaves the whole exchange as it was: the unconfirmed tags and
the counter are unchanged and `allMessagesDelivered` is not emitted. -/
theorem nack_changes_nothing (d : QAmqpExchangePrivate) (t : Int) (multiple : Bool) :
    (handleAckOrNack d (ackFrame d bmNack t multiple)).unconfirmedDeliveryTags
      = d.unconfirmedDeliveryTags
    ∧ (handleAckOrNack d (ackFrame d bmNack t multiple)).nextDeliveryTag = d.nextDeliveryTag
    ∧ emissions Signal.allMessagesDelivered
        (handleAckOrNack d (ackFrame d bmNack t multiple)).log
      = emissions Signal.allMessagesDelivered d.log
    ∧ handleAckOrNack d (ackFrame d bmNack t multiple) = d := by
  rw [handleNack_eq]
  exact ⟨rfl, rfl, rfl, rfl⟩

end QAmqpExchangePrivate

namespace QueuePrivate

/-! ## Removing a queue -/

theorem removeFlag_eq (ifUnused ifEmpty noWait : Bool) :
    removeFlag ifUnused ifEmpty noWait
      = (if ifUnused then 1 else 0) + (if ifEmpty then 2 else 0) + (if noWait then 4 else 0) := by
  cases ifUnused <;> cases ifEmpty <;> cases noWait <;> decide

/-- C17: `remove` on a queue that is not declared changes nothing and sends nothing;
on a declared queue it sends exactly one Queue.Delete frame, with the reserved 16-bit
zero, the queue name and a flags byte worth `(ifUnused ? 1 : 0) + (ifEmpty ? 2 : 0) +
(noWait ? 4 : 0)`, and changes nothing else. The byte determines the three
booleans: bit 0 is ifUnused, bit 1 ifEmpty, bit 2 noWait. -/
theorem remove_sends_delete (d : QueuePrivate) (ifUnused ifEmpty noWait : Bool) :
    (d.declared = false → remove d ifUnused ifEmpty noWait = d)
    ∧ (d.declared = true →
        remove d ifUnused ifEmpty noWait
          = { d with log := d.log ++ [Effect.sendFrame (Frame.method
                { channel := d.number, methodClass := fcQueue, id := miDelete,
                  arguments := [Field.int16 0, Field.shortString d.name,
                    Field.int8 ((if ifUnused then 1 else 0) + (if ifEmpty then 2 else 0)
                                + (if noWait then 4 else 0))] })] })
    ∧ (∀ a b c : Bool, removeFlag ifUnused ifEmpty noWait = removeFlag a b c →
        ifUnused = a ∧ ifEmpty = b ∧ noWait = c)
    ∧ (removeFlag ifUnused ifEmpty noWait).toNat.testBit 0 = ifUnused
    ∧ (removeFlag ifUnused ifEmpty noWait).toNat.testBit 1 = ifEmpty
    ∧ (removeFlag ifUnused ifEmpty noWait).toNat.testBit 2 = noWait := by
  refine ⟨?_, ?_, ?_, ?_, ?_, ?_⟩
  · intro h
    simp [remove, h]
  · intro h
    simp [remove, h, sendFrame, deleteFrame, removeFlag_eq]
  · intro a b c
    cases ifUnused <;> cases ifEmpty <;> cases noWait <;> cases a <;> cases b <;> cases c <;>
      decide
  · cases ifUnused <;> cases ifEmpty <;> cases noWait <;> decide
  · cases ifUnused <;> cases ifEmpty <;> cases noWait <;> decide
  · cases ifUnused <;> cases ifEmpty <;> cases noWait <;> decide

/-- Witness of C17: a declared queue removed with ifUnused and noWait set sends a
flags byte of 5; the same call on a queue that is not declared does nothing. -/
theorem remove_sends_delete_witness :
    remove (init "q1" 1) true false true = init "q1" 1
    ∧ remove { init "q1" 1 with declared := true } true false true
        = { init "q1" 1 with
              log := [Effect.sendFrame (Frame.method
                { channel := 1, methodClass := 50, id := 40,
                  arguments := [Field.int16 0, Field.shortString "q1", Field.int8 5] })],
              declared := true } :=
  ⟨(remove_sends_delete (init "q1" 1) true false true).1 rfl,
   (remove_sends_delete { init "q1" 1 with declared := true } true false true).2.1 rfl⟩

/-! ## Pending messages -/

theorem content_single (d : QueuePrivate) (m0 : Message) (bodySize : Int)
    (properties : PropertyHash) :
    _q_content { d with messages_ := [m0] }
        { channel := d.number, methodClass := fcBasic, bodySize := bodySize,
          properties := properties }
      = { d with messages_ :=
            [{ m0 with leftSize := bodySize,
                       property := properties.foldl (fun h kv => setProperty h kv.1 kv.2)
                                     m0.property }] } := by
  simp [_q_content, updateLast]

/-- Whatever non-negative value the constructor of `Message` leaves in `leftSize`,
a head message can be reported by `hasMessage` before any header frame: right after
its method frame when the value is 0, after a body frame of that many bytes
otherwise. -/
theorem hasMessage_without_header (leftSize0 : Int) (h0 : 0 ≤ leftSize0) (d : QueuePrivate)
    (viaGet : Bool) (deliveryTag : Int) (redelivered : Bool) (exchangeName routingKey : String)
    (hempty : d.messages_ = []) :
    hasMessage (receiveBodies
      (_q_method false leftSize0 d
        (acceptedFrame d viaGet deliveryTag redelivered exchangeName routingKey)).1
      [List.replicate leftSize0.toNat 0]) = true := by
  rw [accepted_enqueues, hempty, List.nil_append]
  obtain ⟨h1, _⟩ := receiveBodies_single [List.replicate leftSize0.toNat 0]
    { d with messages_ :=
        [{ Message.new leftSize0 with routeKey := routingKey, exchangeName := exchangeName,
                                      deliveryTag := deliveryTag }] } _ rfl
  unfold hasMessage
  rw [h1]
  simp [totalSize, Message.new]
  omega

/-- C18 (amended): `hasMessage()` is true exactly when there is a pending message
and the head (oldest) one has `leftSize` 0; the messages behind the head do not
matter. For a single delivery whose header has been received this is exactly when
the bytes received equal the body size of the header. -/
theorem hasMessage_head_leftSize (d : QueuePrivate) :
    (hasMessage d = true ↔ ∃ (m : Message) (rest : List Message),
        d.messages_ = m :: rest ∧ m.leftSize = 0)
    ∧ (∀ (m : Message) (rest rest1 : List Message),
        hasMessage { d with messages_ := m :: rest }
          = hasMessage { d with messages_ := m :: rest1 })
    ∧ (∀ (leftSize0 : Int) (viaGet : Bool) (deliveryTag : Int) (redelivered : Bool)
        (exchangeName routingKey : String) (bodySize : Int) (properties : PropertyHash)
        (fragments : List QByteArray), d.messages_ = [] →
        (hasMessage (receiveDelivery leftSize0 d
            (acceptedFrame d viaGet deliveryTag redelivered exchangeName routingKey)
            bodySize properties fragments) = true
          ↔ totalSize fragments = bodySize)) := by
  refine ⟨?_, ?_, ?_⟩
  · unfold hasMessage
    cases hm : d.messages_ with
    | nil => simp
    | cons q rest => simp
  · intro m rest rest1
    rfl
  · intro leftSize0 viaGet deliveryTag redelivered exchangeName routingKey bodySize properties
      fragments hempty
    unfold receiveDelivery
    simp only [accepted_enqueues, hempty, List.nil_append]
    rw [content_single]
    obtain ⟨h1, _⟩ := receiveBodies_single fragments
      { d with messages_ :=
          [{ routeKey := routingKey, exchangeName := exchangeName, deliveryTag := deliveryTag,
             property := properties.foldl (fun h kv => setProperty h kv.1 kv.2)
                           (Message.new leftSize0).property,
             payload := (Message.new leftSize0).payload,
             leftSize := bodySize }] } _ rfl
    unfold hasMessage
    rw [h1]
    simp only [decide_eq_true_eq]
    constructor <;> intro h <;> omega

/-- Witness of C18 (amended): a header announcing 3 bytes; after 2 bytes the message
is not reported, after 3 it is. -/
theorem hasMessage_head_leftSize_witness :
    (hasMessage (receiveDelivery 0 (init "q1" 1)
        (acceptedFrame (init "q1" 1) true 5 false "logs" "key") 3 [] [[1, 2]]) = true
      ↔ totalSize [[1, 2]] = 3)
    ∧ (hasMessage (receiveDelivery 0 (init "q1" 1)
        (acceptedFrame (init "q1" 1) true 5 false "logs" "key") 3 [] [[1, 2], [3]]) = true
      ↔ totalSize [[1, 2], [3]] = 3) :=
  ⟨(hasMessage_head_leftSize (init "q1" 1)).2.2 0 true 5 false "logs" "key" 3 []
      [[1, 2]] rfl,
   (hasMessage_head_leftSize (init "q1" 1)).2.2 0 true 5 false "logs" "key" 3 []
      [[1, 2], [3]] rfl⟩

/-- Counterexample to C18 as stated: a head message whose method frame has arrived
and whose header frame has not is reported by `hasMessage()`: right after the
Deliver frame when a new message starts with `leftSize` 0, and after a body frame of
three bytes when it starts with `leftSize` 3. -/
theorem hasMessage_before_header_counterexample :
    hasMessage (_q_method false 0 (init "q1" 1)
        (acceptedFrame (init "q1" 1) false 5 false "logs" "key")).1 = true
    ∧ hasMessage (receiveBodies
        (_q_method false 3 (init "q1" 1)
          (acceptedFrame (init "q1" 1) false 5 false "logs" "key")).1
        [[1, 2, 3]]) = true := by
  decide

/-! ## The channel-close notification -/

/-- C19 (amended): the channel-close notification leaves the `declared` flag as it
was. On a queue that is not declared it sends nothing and changes nothing; on a
declared queue it sends one Queue.Delete frame, with ifUnused and ifEmpty set, and
changes nothing else. -/
theorem onClose_requests_delete (noWait : Bool) (d : QueuePrivate) :
    (onClose noWait d).declared = d.declared
    ∧ (d.declared = false → onClose noWait d = d)
    ∧ (d.declared = true →
        onClose noWait d
          = { d with log := d.log
                ++ [Effect.sendFrame (Frame.method (deleteFrame d true true noWait))] }) := by
  refine ⟨?_, ?_, ?_⟩
  · unfold onClose remove
    split
    · rfl
    · rfl
  · intro h
    simp [onClose, remove, h]
  · intro h
    simp [onClose, remove, h, sendFrame]

/-- Witness of C19 (amended): the notification on a queue that is not declared and
on a declared one. -/
theorem onClose_requests_delete_witness :
    onClose false (init "q1" 1) = init "q1" 1
    ∧ onClose false { init "q1" 1 with declared := true }
        = { init "q1" 1 with
              log := ({ init "q1" 1 with declared := true }).log
                ++ [Effect.sendFrame (Frame.method
                      (deleteFrame { init "q1" 1 with declared := true } true true false))],
              declared := true } :=
  ⟨(onClose_requests_delete false (init "q1" 1)).2.1 rfl,
   (onClose_requests_delete false { init "q1" 1 with declared := true }).2.2 rfl⟩

/-- Counterexample to C19 as stated: on a declared queue the channel-close
notification leaves `declared` true and sends a frame, whichever default the
third parameter of `remove` has. -/
theorem onClose_declared_counterexample :
    (onClose false { init "q1" 1 with declared := true }).declared = true
    ∧ (framesOf (onClose false { init "q1" 1 with declared := true }).log).length = 1
    ∧ (onClose true { init "q1" 1 with declared := true }).declared = true
    ∧ (framesOf (onClose true { init "q1" 1 with declared := true }).log).length = 1 := by
  decide

/-! ## The delete acknowledgement -/

/-- C20 (what the code does): on a declared queue an incoming Queue.DeleteOk frame
(class 50, method 41) falls through the dispatch: the queue stays declared and
nothing is emitted. It is a frame with the id of the Delete request (method 40)
that runs `deleteOk`, clears `declared` and emits `removed`. -/
theorem deleteOk_frame_not_dispatched (leftSize0 : Int) (d : QueuePrivate)
    (arguments : List Field) :
    fcQueue = 50 ∧ miDeleteOk = 41 ∧ miDelete = 40
    ∧ _q_method false leftSize0 { d with declared := true }
        (queueFrame d miDeleteOk arguments)
      = ({ d with declared := true }, true)
    ∧ _q_method false leftSize0 { d with declared := true }
        (queueFrame d miDelete arguments)
      = ({ d with declared := false, log := d.log ++ [Effect.emit Signal.removed] }, true) := by
  refine ⟨rfl, rfl, rfl, ?_, ?_⟩
  · simp [_q_method, queueFrame, miDeleteOk, miDeclareOk, miDelete, miBindOk, miUnbindOk,
      miPurgeOk]
  · simp [_q_method, queueFrame, miDeclareOk, miDelete, deleteOk, emit]

end QueuePrivate

namespace QueuePrivate

/-! ## Body frames with several messages pending -/

theorem updateLast_concat (init : List Message) (last : Message) (f : Message → Message) :
    updateLast (init ++ [last]) f = init ++ [f last] := by
  induction init with
  | nil => rfl
  | cons a t ih =>
    cases t with
    | nil => rfl
    | cons b t1 =>
      have h : updateLast (a :: (b :: t1 ++ [last])) f
          = a :: updateLast (b :: t1 ++ [last]) f := rfl
      rw [List.cons_append, h, ih]
      rfl

theorem body_last (d : QueuePrivate) (init : List Message) (last : Message)
    (frame : ContentBodyFrame) (hm : d.messages_ = init ++ [last])
    (hch : frame.channel = d.number) :
    _q_body d frame
      = if last.leftSize - (frame.body.length : Int) = 0 ∧ init = [] then
          emit { d with messages_ := init ++
                  [{ last with payload := last.payload ++ frame.body,
                               leftSize := last.leftSize - (frame.body.length : Int) }] }
            Signal.messageReceived
        else
          { d with messages_ := init ++
              [{ last with payload := last.payload ++ frame.body,
                           leftSize := last.leftSize - (frame.body.length : Int) }] } := by
  have hne : ¬ (d.messages_.isEmpty = true) := by
    rw [hm]; simp
  unfold _q_body
  simp only [hch, ne_eq, not_true_eq_false, if_false, hne, Bool.false_eq_true]
  rw [hm, updateLast_concat]
  simp only [List.getLast?_append, List.getLast?_singleton, Option.or,
    List.length_append, List.length_singleton]
  have hlen : (init.length + 1 = 1) ↔ init = [] := by
    constructor
    · intro h; exact List.length_eq_zero.mp (by omega)
    · intro h; rw [h]; rfl
  simp only [hlen]

/-- C22: a body frame on the queue's channel, with at least one message pending,
appends its bytes to the last pending message only (the messages before it and
every other field of the queue are unchanged) and lowers that message's `leftSize`
by the frame's length; `messageReceived` is emitted, once, exactly when that
`leftSize` is then 0 and one message is pending. With two or more messages pending
nothing is emitted. -/
theorem body_frame_notification_rule (d : QueuePrivate) (frame : ContentBodyFrame)
    (hne : d.messages_ ≠ []) (hch : frame.channel = d.number) :
    _q_body d frame
      = { d with
          messages_ := d.messages_.dropLast ++
            [{ d.messages_.getLast hne with
                payload := (d.messages_.getLast hne).payload ++ frame.body,
                leftSize := (d.messages_.getLast hne).leftSize - (frame.body.length : Int) }],
          log := d.log ++
            (if (d.messages_.getLast hne).leftSize - (frame.body.length : Int) = 0
                ∧ d.messages_.length = 1
              then [Effect.emit Signal.messageReceived] else []) }
    ∧ (2 ≤ d.messages_.length → (_q_body d frame).log = d.log) := by
  have hm : d.messages_ = d.messages_.dropLast ++ [d.messages_.getLast hne] :=
    (List.dropLast_append_getLast hne).symm
  have hlen : d.messages_.length = d.messages_.dropLast.length + 1 := by
    conv_lhs => rw [hm]
    simp
  have hiff : (d.messages_.dropLast = []) ↔ d.messages_.length = 1 := by
    constructor
    · intro h; rw [hlen, h]; rfl
    · intro h; exact List.length_eq_zero.mp (by omega)
  have hbody := body_last d d.messages_.dropLast (d.messages_.getLast hne) frame hm hch
  constructor
  · rw [hbody]
    by_cases hc : (d.messages_.getLast hne).leftSize - (frame.body.length : Int) = 0
        ∧ d.messages_.length = 1
    · have hc1 : (d.messages_.getLast hne).leftSize - (frame.body.length : Int) = 0
          ∧ d.messages_.dropLast = [] := ⟨hc.1, hiff.mpr hc.2⟩
      rw [if_pos hc1, if_pos hc]
      rfl
    · have hc1 : ¬ ((d.messages_.getLast hne).leftSize - (frame.body.length : Int) = 0
          ∧ d.messages_.dropLast = []) := fun h => hc ⟨h.1, hiff.mp h.2⟩
      rw [if_neg hc1, if_neg hc]
      simp
  · intro h2
    have hc1 : ¬ ((d.messages_.getLast hne).leftSize - (frame.body.length : Int) = 0
        ∧ d.messages_.dropLast = []) := by
      intro h
      have := hiff.mp h.2
      omega
    rw [hbody, if_neg hc1]

/-- Witness of C22: two messages pending, the last one expecting two bytes; the
body frame that completes it is appended to it alone and nothing is emitted. -/
theorem body_frame_notification_rule_witness :
    (_q_body { init "q1" 1 with messages_ := [Message.new 0, { Message.new 0 with leftSize := 2 }] }
        { channel := 1, body := [8, 9] }).messages_
      = [Message.new 0, { Message.new 0 with payload := [8, 9], leftSize := 0 }]
    ∧ (_q_body { init "q1" 1 with messages_ := [Message.new 0, { Message.new 0 with leftSize := 2 }] }
        { channel := 1, body := [8, 9] }).log = [] := by
  have h := body_frame_notification_rule
    { init "q1" 1 with messages_ := [Message.new 0, { Message.new 0 with leftSize := 2 }] }
    { channel := 1, body := [8, 9] } (by decide) rfl
  exact ⟨by rw [h.1]; decide, h.2 (by decide)⟩

/-! ## The sign of `leftSize` -/

theorem method_messages (baseHandled : Bool) (leftSize0 : Int) (d : QueuePrivate)
    (frame : MethodFrame) :
    (_q_method baseHandled leftSize0 d frame).1.messages_ = d.messages_
    ∨ ∃ args : List Field,
        (_q_method baseHandled leftSize0 d frame).1.messages_
          = d.messages_ ++ [newMessage leftSize0 args] := by
  unfold _q_method
  split
  · left; rfl
  · split
    · left
      simp only
      split_ifs <;> rfl
    · split
      · simp only
        split_ifs
        · left; rfl
        · unfold deliver
          simp only
          split
          · left; rfl
          · right; exact ⟨_, rfl⟩
        · right; exact ⟨_, rfl⟩
        · left; rfl
        · left; rfl
      · left; rfl

theorem receive_nonneg (leftSize0 : Int) (h0 : 0 ≤ leftSize0) (d : QueuePrivate)
    (frame : Incoming) (hd : ∀ m ∈ d.messages_, 0 ≤ m.leftSize) (hfit : fits d frame = true) :
    ∀ m ∈ (receive leftSize0 d frame).messages_, 0 ≤ m.leftSize := by
  cases frame with
  | method baseHandled f =>
    intro m hm
    simp only [receive] at hm
    rcases method_messages baseHandled leftSize0 d f with h | ⟨args, h⟩
    · rw [h] at hm; exact hd m hm
    · rw [h] at hm
      rcases List.mem_append.mp hm with h1 | h1
      · exact hd m h1
      · rw [List.mem_singleton] at h1
        subst h1
        simpa [newMessage, Message.new] using h0
  | content f =>
    have hb : 0 ≤ f.bodySize := by simpa [fits] using hfit
    intro m hm
    simp only [receive, _q_content] at hm
    split at hm
    · exact hd m hm
    · split at hm
      · exact hd m hm
      · rename_i hne
        have hne1 : d.messages_ ≠ [] := by
          intro h; apply hne; rw [h]; rfl
        have hdec := (List.dropLast_append_getLast hne1).symm
        simp only at hm
        rw [hdec, updateLast_concat] at hm
        rcases List.mem_append.mp hm with h1 | h1
        · exact hd m (List.mem_of_mem_dropLast h1)
        · rw [List.mem_singleton] at h1
          subst h1
          exact hb
  | body f =>
    intro m hm
    simp only [receive] at hm
    by_cases hch : f.channel = d.number
    · by_cases hne : d.messages_ = []
      · have : _q_body d f = d := by
          simp [_q_body, hne]
        rw [this] at hm
        exact hd m hm
      · have hdec := (List.dropLast_append_getLast hne).symm
        have hlast : d.messages_.getLast? = some (d.messages_.getLast hne) :=
          List.getLast?_eq_getLast _ hne
        have hle : (f.body.length : Int) ≤ (d.messages_.getLast hne).leftSize := by
          simpa [fits, hch, hlast] using hfit
        rw [body_last d _ _ f hdec hch] at hm
        have hmem : m ∈ d.messages_.dropLast ++
            [{ d.messages_.getLast hne with
                payload := (d.messages_.getLast hne).payload ++ f.body,
                leftSize := (d.messages_.getLast hne).leftSize - (f.body.length : Int) }] := by
          split at hm
          · exact hm
          · exact hm
        rcases List.mem_append.mp hmem with h1 | h1
        · exact hd m (List.mem_of_mem_dropLast h1)
        · rw [List.mem_singleton] at h1
          subst h1
          simp only
          omega
    · have : _q_body d f = d := by
        simp [_q_body, hch]
      rw [this] at hm
      exact hd m hm

theorem receiveAll_nonneg (leftSize0 : Int) (h0 : 0 ≤ leftSize0) (frames : List Incoming) :
    ∀ d : QueuePrivate, (∀ m ∈ d.messages_, 0 ≤ m.leftSize) →
      fitsAll leftSize0 d frames = true →
      ∀ n : Nat, ∀ m ∈ (receiveAll leftSize0 d (frames.take n)).messages_, 0 ≤ m.leftSize := by
  induction frames with
  | nil =>
    intro d hd _ n m hm
    simp only [List.take_nil, receiveAll, List.foldl_nil] at hm
    exact hd m hm
  | cons frame rest ih =>
    intro d hd hfit n
    simp only [fitsAll, Bool.and_eq_true] at hfit
    cases n with
    | zero =>
      intro m hm
      simp only [List.take_zero, receiveAll, List.foldl_nil] at hm
      exact hd m hm
    | succ k =>
      have hstep : receiveAll leftSize0 d ((frame :: rest).take (k + 1))
          = receiveAll leftSize0 (receive leftSize0 d frame) (rest.take k) := rfl
      rw [hstep]
      exact ih _ (receive_nonneg leftSize0 h0 d frame hd hfit.1) hfit.2 k

/-- C21 (amended): when a new message starts with `leftSize` at least 0, every
header announces a body size of at least 0 and no body frame carries more bytes
than the last pending message still expects, every pending message has `leftSize`
at least 0 after each frame of the sequence, whatever method frames it holds. -/
theorem leftSize_nonneg_invariant (leftSize0 : Int) (d : QueuePrivate)
    (frames : List Incoming) (h0 : 0 ≤ leftSize0)
    (hd : ∀ m ∈ d.messages_, 0 ≤ m.leftSize)
    (hfit : fitsAll leftSize0 d frames = true) :
    ∀ n : Nat, ∀ m ∈ (receiveAll leftSize0 d (frames.take n)).messages_, 0 ≤ m.leftSize :=
  receiveAll_nonneg leftSize0 h0 frames d hd hfit

/-- Witness of C21 (amended): a Deliver frame, a header announcing 3 bytes, body
frames of 2 and 1 bytes, then a GetOk frame. -/
theorem leftSize_nonneg_invariant_witness :
    ((receiveAll 0 (init "q1" 1)
        [Incoming.method false (deliverFrame (init "q1" 1) "" 5 false "logs" "key"),
         Incoming.content { channel := 1, methodClass := 60, bodySize := 3, properties := [] },
         Incoming.body { channel := 1, body := [1, 2] },
         Incoming.body { channel := 1, body := [3] },
         Incoming.method false (getOkFrame (init "q1" 1) 6 false "logs" "key")]).messages_.all
      (fun m => decide (0 ≤ m.leftSize))) = true :=
  List.all_eq_true.mpr (fun m hm => decide_eq_true
    (leftSize_nonneg_invariant 0 (init "q1" 1)
      [Incoming.method false (deliverFrame (init "q1" 1) "" 5 false "logs" "key"),
       Incoming.content { channel := 1, methodClass := 60, bodySize := 3, properties := [] },
       Incoming.body { channel := 1, body := [1, 2] },
       Incoming.body { channel := 1, body := [3] },
       Incoming.method false (getOkFrame (init "q1" 1) 6 false "logs" "key")]
      (by decide) (by intro m hm; cases hm) (by decide) 5 m hm))

/-- Counterexample to C21 as stated: a Deliver frame, a header announcing 2 bytes
and a body frame of 3 bytes leave the pending message with `leftSize` -1. -/
theorem leftSize_negative_counterexample :
    (receiveAll 0 (init "q1" 1)
        [Incoming.method false (deliverFrame (init "q1" 1) "" 5 false "logs" "key"),
         Incoming.content { channel := 1, methodClass := 60, bodySize := 2, properties := [] },
         Incoming.body { channel := 1, body := [1, 2, 3] }]).messages_.map
      (fun m => m.leftSize) = [-1] := by
  decide

/-! ## Acknowledgements other than DeclareOk and DeleteOk -/

/-- C24 (amended): an incoming BindOk or UnbindOk frame changes no field of the
queue and only emits `binded`; an incoming ConsumeOk frame sets `consumerTag` to the
tag of the frame, emits nothing and changes no field other than `consumerTag` and
`declared`; an incoming PurgeOk frame runs `deleteOk`: it sets `declared` to false
and emits `removed`. -/
theorem ok_frames_effects (leftSize0 : Int) (d : QueuePrivate) (arguments : List Field) :
    (_q_method false leftSize0 d (queueFrame d miBindOk arguments)).1
      = { d with log := d.log ++ [Effect.emit (Signal.binded true)] }
    ∧ (_q_method false leftSize0 d (queueFrame d miUnbindOk arguments)).1
      = { d with log := d.log ++ [Effect.emit (Signal.binded false)] }
    ∧ (_q_method false leftSize0 d (basicFrame d bmConsumeOk arguments)).1.consumerTag
      = (readShortString arguments).1
    ∧ { (_q_method false leftSize0 d (basicFrame d bmConsumeOk arguments)).1 with
          declared := d.declared }
      = { d with consumerTag := (readShortString arguments).1 }
    ∧ (_q_method false leftSize0 d (queueFrame d miPurgeOk arguments)).1
      = { d with declared := false, log := d.log ++ [Effect.emit Signal.removed] } := by
  refine ⟨?_, ?_, ?_, ?_, ?_⟩
  · simp [_q_method, queueFrame, miBindOk, miDeclareOk, miDelete, bindOk, emit]
  · simp [_q_method, queueFrame, miUnbindOk, miBindOk, miDeclareOk, miDelete, unbindOk, emit]
  · simp [_q_method, basicFrame, fcBasic, fcQueue, bmConsumeOk, consumeOk]
  · simp [_q_method, basicFrame, fcBasic, fcQueue, bmConsumeOk, consumeOk]
  · simp [_q_method, queueFrame, miPurgeOk, miUnbindOk, miBindOk, miDeclareOk, miDelete,
      deleteOk, emit]

/-- Counterexample to C24 as stated: on a declared queue an incoming PurgeOk frame
clears `declared` and emits `removed`, after which `remove` sends nothing; an
incoming ConsumeOk frame clears `declared` as well. -/
theorem purgeOk_clears_declared_counterexample :
    (_q_method false 0 { init "q1" 1 with declared := true }
        (queueFrame (init "q1" 1) miPurgeOk [Field.longLong 0])).1.declared = false
    ∧ emissions Signal.removed
        (_q_method false 0 { init "q1" 1 with declared := true }
          (queueFrame (init "q1" 1) miPurgeOk [Field.longLong 0])).1.log = 1
    ∧ framesOf (remove
        (_q_method false 0 { init "q1" 1 with declared := true }
          (queueFrame (init "q1" 1) miPurgeOk [Field.longLong 0])).1 true true false).log = []
    ∧ (_q_method false 0 { init "q1" 1 with declared := true }
        (basicFrame (init "q1" 1) bmConsumeOk [Field.shortString "ctag-1"])).1.declared
      = false := by
  decide

end QueuePrivate

namespace QAmqpExchangePrivate

/-! ## Termination of the body loop -/

theorem publishLoop_diverges (message : QByteArray) (hne : message ≠ []) (fuel : Nat) :
    ∀ (sent : Int) (d : QAmqpExchangePrivate), d.frameMax ≤ 7 → sent ≤ 0 →
      publishLoop message fuel sent d = none := by
  have hpos : 0 < message.length := List.length_pos.mpr hne
  induction fuel with
  | zero =>
    intro sent d _ hs
    unfold publishLoop
    have : sent < (message.length : Int) := by omega
    simp [this]
  | succ fuel ih =>
    intro sent d hF hs
    unfold publishLoop
    have hlt : sent < (message.length : Int) := by omega
    simp only [hlt, if_true]
    exact ih _ _ (by simpa [sendFrame] using hF) (by omega)

/-- C23: for a maximal frame size above 7 the body loop of publish ends, for every
payload, within as many iterations as the payload has bytes, having run
`ceil(S / (frameMax - 7))` of them (one body frame each); every iteration moves the
offset by exactly `frameMax - 7`. For a maximal frame size of 7 or less and a
non-empty payload the loop, and so publish, does not end within any number of
iterations. -/
theorem publish_loop_termination (d : QAmqpExchangePrivate) (message : QByteArray) :
    (7 < d.frameMax → ∀ fuel : Nat, message.length ≤ fuel →
      ∃ (d1 : QAmqpExchangePrivate) (bodies : List QByteArray),
        publishLoop message fuel 0 d = some d1
        ∧ d1.log = d.log ++ bodies.map (fun b =>
            Effect.sendFrame (Frame.body { channel := d.channelNumber, body := b }))
        ∧ bodies.length
            = (message.length + (d.frameMax - 7).toNat - 1) / (d.frameMax - 7).toNat)
    ∧ (∀ (fuel : Nat) (sent : Int), sent < (message.length : Int) →
        publishLoop message (fuel + 1) sent d
          = publishLoop message fuel (sent + (d.frameMax - 7))
              (sendFrame d (Frame.body { channel := d.channelNumber,
                                         body := mid message sent (d.frameMax - 7) })))
    ∧ (d.frameMax ≤ 7 → message ≠ [] → ∀ fuel : Nat, publishLoop message fuel 0 d = none)
    ∧ (d.frameMax ≤ 7 → message ≠ [] →
        ∀ (fuel : Nat) (routingKey mimeType : String) (headers : QAmqpTable)
          (properties : PropertyHash) (publishOptions : Int),
          publish fuel d message routingKey mimeType headers properties publishOptions
            = none) := by
  refine ⟨?_, ?_, ?_, ?_⟩
  · intro hF fuel hfuel
    have hc : 0 < (d.frameMax - 7).toNat := by omega
    have hcast : d.frameMax - 7 = (((d.frameMax - 7).toNat : Nat) : Int) := by omega
    obtain ⟨bodies, hrun, _, _, hcount⟩ :=
      publishLoop_spec message (d.frameMax - 7).toNat hc fuel 0 d hcast (by omega)
    exact ⟨_, bodies, hrun, rfl, by rw [hcount]; rfl⟩
  · intro fuel sent hlt
    conv_lhs => unfold publishLoop
    simp only [hlt, if_true]
  · intro hF hne fuel
    exact publishLoop_diverges message hne fuel 0 d hF (le_refl _)
  · intro hF hne fuel routingKey mimeType headers properties publishOptions
    unfold publish
    exact publishLoop_diverges message hne fuel 0 _
      (by simp only [sendFrame]; split <;> exact hF) (le_refl _)

/-- Witness of C23: seven bytes with a maximal frame size of 10 end after three
iterations' worth of frames; one byte with a maximal frame size of 7 does not end
within 50 iterations. -/
theorem publish_loop_termination_witness :
    (∃ (d1 : QAmqpExchangePrivate) (bodies : List QByteArray),
        publishLoop [1, 2, 3, 4, 5, 6, 7] 7 0 (init "logs" 1 10) = some d1
        ∧ d1.log = (init "logs" 1 10).log ++ bodies.map (fun b =>
            Effect.sendFrame (Frame.body { channel := (init "logs" 1 10).channelNumber,
                                           body := b }))
        ∧ bodies.length
            = (([1, 2, 3, 4, 5, 6, 7] : QByteArray).length
                + ((init "logs" 1 10).frameMax - 7).toNat - 1)
              / ((init "logs" 1 10).frameMax - 7).toNat)
    ∧ publishLoop [1] 50 0 (init "logs" 1 7) = none :=
  ⟨(publish_loop_termination (init "logs" 1 10) [1, 2, 3, 4, 5, 6, 7]).1 (by decide) 7
      (by decide),
   (publish_loop_termination (init "logs" 1 7) [1]).2.2.1 (by decide) (by decide) 50⟩

end QAmqpExchangePrivate

end QAmqp
